import Mathlib

/-!
Verification of the LSST `ip_diffim` kernel-solution core (`KernelSolution.cc`,
`KernelCandidate.cc`).  The numerical code is shallowly embedded over exact
rationals: Eigen matrices become `Matrix (Fin n) (Fin n) ℚ` (or `ℕ`-indexed
functions where the C++ code addresses blocks of a dynamically sized matrix),
double-precision values become `ℚ`, and a double that may be NaN becomes
`Option ℚ` with `none` playing the role of NaN.  Calls into the external Eigen
decomposition routines (self-adjoint eigensolver, Jacobi SVD) are modelled as
oracle arguments: the embedding receives the vectors those routines would
return, with the defining algebraic property stated as a hypothesis where a
claim needs it, and `none` standing for the decomposition throwing.
-/

namespace IpDiffim

open Matrix

/-- The `KernelSolution::KernelSolvedBy` states used by `KernelSolution.cc`:
`NONE` (initial / failed), `LU` and `EIGENVECTOR`. -/
inductive KSolvedBy where
  | NONE
  | LU
  | EIGENVECTOR
  deriving DecidableEq, Repr

/-- Error kinds of the spec's taxonomy, as thrown by the embedded code. -/
inductive KError where
  | invalidInput
  | notSolved
  | numerical
  | runtimeErr
  | typeError
  | mismatch
  deriving DecidableEq, Repr

/-- Exact-arithmetic inverse of a square rational matrix (`M.det⁻¹ • adjugate`);
this is the value Eigen's full-pivot LU `solve` produces when
`lu.isInvertible()` holds, and it agrees with Mathlib's `M⁻¹`. -/
def matInv {n : ℕ} (M : Matrix (Fin n) (Fin n) ℚ) : Matrix (Fin n) (Fin n) ℚ :=
  M.det⁻¹ • M.adjugate

/-- The eigenvalue-reciprocal loop of `KernelSolution::solve`
(`KernelSolution.cc` lines 163–167): every nonzero eigenvalue is inverted,
zeros are left in place. -/
def pinvDiag {n : ℕ} (e : Fin n → ℚ) : Fin n → ℚ :=
  fun i => if e i ≠ 0 then 1 / e i else e i

/-- `KernelSolution::solve(mMat, bVec)` (`KernelSolution.cc` lines 131–190).
`eig` is the oracle for Eigen's `SelfAdjointEigenSolver`: `some (r, e)` is the
pair (eigenvectors, eigenvalues) it returns, `none` means the decomposition
threw.  On the throw path the source sets `_solvedBy = NONE` and rethrows,
which is the `.error .NONE` result here; otherwise the returned pair is the
final `_solvedBy` state together with the assigned `_aVec`. -/
def solveLin {n : ℕ} (M : Matrix (Fin n) (Fin n) ℚ) (b : Fin n → ℚ)
    (eig : Option (Matrix (Fin n) (Fin n) ℚ × (Fin n → ℚ))) :
    Except KSolvedBy (KSolvedBy × (Fin n → ℚ)) :=
  if M.det ≠ 0 then
    Except.ok (KSolvedBy.LU, matInv M *ᵥ b)
  else
    match eig with
    | some (r, e) =>
        Except.ok (KSolvedBy.EIGENVECTOR,
          (r * Matrix.diagonal (pinvDiag e) * r.transpose) *ᵥ b)
    | none => Except.error KSolvedBy.NONE

/-- `maxCoeff()` of a nonempty Eigen vector: the maximum entry. -/
def vecMax : {k : ℕ} → (Fin (k + 1) → ℚ) → ℚ
  | 0, v => v 0
  | _ + 1, v => max (vecMax (fun i => v i.castSucc)) (v (Fin.last _))

/-- `minCoeff()` of a nonempty Eigen vector: the minimum entry. -/
def vecMin : {k : ℕ} → (Fin (k + 1) → ℚ) → ℚ
  | 0, v => v 0
  | _ + 1, v => min (vecMin (fun i => v i.castSucc)) (v (Fin.last _))

/-- `KernelSolution::getConditionNumber(mMat, conditionType)`
(`KernelSolution.cc` lines 98–129).  `conditionType` is the underlying value
of the C++ `ConditionNumberType` enum (`EIGENVALUE = 0`, `SVD = 1`); the
`default:` branch of the switch throws `InvalidParameterError`.  `eValues` is
the oracle for `SelfAdjointEigenSolver(mMat).eigenvalues()` and `sValues` for
`mMat.jacobiSvd().singularValues()`.  Note the source divides the raw
`maxCoeff()` by the raw `minCoeff()` — no absolute values are taken. -/
def getConditionNumberK {k : ℕ} (conditionType : ℕ)
    (eValues sValues : Fin (k + 1) → ℚ) : Except KError ℚ :=
  if conditionType = 0 then Except.ok (vecMax eValues / vecMin eValues)
  else if conditionType = 1 then Except.ok (vecMax sValues / vecMin sValues)
  else Except.error KError.invalidInput

/-- Number of background parameters: `_fitForBackground ? 1 : 0`. -/
def bgCols (fitBg : Bool) : ℕ := if fitBg then 1 else 0

/-- `afwMath::makeStatistics(image, MIN)` on a nonempty image flattened to a
vector: the minimum pixel value. -/
def imageMin {N : ℕ} (v : Fin (N + 1) → ℚ) : ℚ :=
  Finset.univ.inf' Finset.univ_nonempty v

/-- The design matrix `cMat` assembled by `StaticKernelSolution::build`
(`KernelSolution.cc` lines 376–384): column `j < nK` holds the template
convolved with basis kernel `j` (oracle `conv`, the output of
`afwMath::convolve`) restricted to the good region (`gr` enumerates the pixels
of the shrunk bounding box in flattening order), and when `fitForBackground`
the final extra column is filled with ones. -/
def staticC (nK : ℕ) (fitBg : Bool) {N P : ℕ} (conv : Fin nK → Fin (N + 1) → ℚ)
    (gr : Fin P → Fin (N + 1)) : Matrix (Fin P) (Fin (nK + bgCols fitBg)) ℚ :=
  fun p j => if h : (j : ℕ) < nK then conv ⟨j, h⟩ (gr p) else 1

/-- The fields assigned by a successful stamp build
(`_cMat`, `_ivVec`, `_iVec`, `_mMat`, `_bVec`). -/
structure StaticBuildResult (P np : ℕ) where
  cMat : Matrix (Fin P) (Fin np) ℚ
  ivVec : Fin P → ℚ
  iVec : Fin P → ℚ
  mMat : Matrix (Fin np) (Fin np) ℚ
  bVec : Fin np → ℚ

/-- `StaticKernelSolution::build(templateImage, scienceImage, varianceEstimate)`
(`KernelSolution.cc` lines 261–393).  Images are vectors over the full frame
`Fin (N+1)`; `conv` is the convolution oracle (template convolved with each
basis kernel) and `gr` enumerates the good region.  The two variance checks
precede every member assignment; on success `_ivVec` is the element-wise
reciprocal of the variance over the good region, `_iVec` the science pixels
there, and `_mMat = Cᵀ(V C)`, `_bVec = Cᵀ(V Y)` with `V = diag(_ivVec)`. -/
def buildStatic (nK : ℕ) {N P : ℕ} (fitBg : Bool)
    (conv : Fin nK → Fin (N + 1) → ℚ) (science variance : Fin (N + 1) → ℚ)
    (gr : Fin P → Fin (N + 1)) :
    Except KError (StaticBuildResult P (nK + bgCols fitBg)) :=
  if imageMin variance < 0 then Except.error KError.invalidInput
  else if imageMin variance = 0 then Except.error KError.invalidInput
  else
    let ivVec : Fin P → ℚ := fun p => (variance (gr p))⁻¹
    let iVec : Fin P → ℚ := fun p => science (gr p)
    let cMat := staticC nK fitBg conv gr
    Except.ok
      { cMat := cMat
        ivVec := ivVec
        iVec := iVec
        mMat := cMat.transpose * (Matrix.diagonal ivVec * cMat)
        bVec := cMat.transpose *ᵥ (Matrix.diagonal ivVec *ᵥ iVec) }

/-- The list of good pixels used by `MaskedKernelSolution::buildWithMask`
(`KernelSolution.cc` lines 581–598): the full-footprint flattening order
restricted to pixels whose grown final mask is zero. -/
def maskedGood {N : ℕ} (finalMask : Fin (N + 1) → ℤ) : List (Fin (N + 1)) :=
  (List.finRange (N + 1)).filter (fun i => finalMask i = 0)

/-- Pixel enumeration of the masked build: position `p` among the retained
(mask = 0) pixels. -/
def maskedGr {N : ℕ} (finalMask : Fin (N + 1) → ℤ)
    (p : Fin (maskedGood finalMask).length) : Fin (N + 1) :=
  (maskedGood finalMask).get p

/-- `MaskedKernelSolution::buildWithMask` (`KernelSolution.cc` lines 500–661).
`finalMask` is the oracle for the grown footprint mask (`finalMask.fits`):
the footprint detection and growth are external `afw` operations.  The
variance checks precede every member assignment; the retained pixels are
those with `finalMask = 0`, in flattening order, and the assembled matrices
have the same shape as in the unmasked build. -/
def buildWithMask (nK : ℕ) {N : ℕ} (fitBg : Bool)
    (conv : Fin nK → Fin (N + 1) → ℚ) (science variance : Fin (N + 1) → ℚ)
    (finalMask : Fin (N + 1) → ℤ) :
    Except KError
      (StaticBuildResult (maskedGood finalMask).length (nK + bgCols fitBg)) :=
  if imageMin variance < 0 then Except.error KError.invalidInput
  else if imageMin variance = 0 then Except.error KError.invalidInput
  else
    let ivVec := fun p => (variance (maskedGr finalMask p))⁻¹
    let iVec := fun p => science (maskedGr finalMask p)
    let cMat := staticC nK fitBg conv (maskedGr finalMask)
    Except.ok
      { cMat := cMat
        ivVec := ivVec
        iVec := iVec
        mMat := cMat.transpose * (Matrix.diagonal ivVec * cMat)
        bVec := cMat.transpose *ᵥ (Matrix.diagonal ivVec *ᵥ iVec) }

/-- The policy entries read by `RegularizedKernelSolution::solve`. -/
structure RegPolicy where
  lambdaType : String
  lambdaValue : ℚ
  lambdaScaling : ℚ
  maxConditionNumber : ℚ

/-- `std::numeric_limits<double>::max()` as an exact rational. -/
def doubleMax : ℚ := (2 ^ 53 - 1) * 2 ^ 971

/-- The `_lambda` selection of `RegularizedKernelSolution::solve`
(`KernelSolution.cc` lines 1221–1238): `absolute` takes the configured
constant, `relative` takes `mMat.trace() / hMat.trace()` scaled by
`lambdaScaling`, the two risk modes call `estimateRisk` (oracle
`riskLambda`, applied to `maxConditionNumber` resp. `DBL_MAX`), and any
other string throws. -/
def chosenLambda {n : ℕ} (mMat hMat : Matrix (Fin n) (Fin n) ℚ)
    (pol : RegPolicy) (riskLambda : ℚ → ℚ) : Except KError ℚ :=
  if pol.lambdaType = "absolute" then Except.ok pol.lambdaValue
  else if pol.lambdaType = "relative" then
    Except.ok (mMat.trace / hMat.trace * pol.lambdaScaling)
  else if pol.lambdaType = "minimizeBiasedRisk" then
    Except.ok (riskLambda pol.maxConditionNumber)
  else if pol.lambdaType = "minimizeUnbiasedRisk" then
    Except.ok (riskLambda doubleMax)
  else Except.error KError.invalidInput

/-- `RegularizedKernelSolution::solve` (`KernelSolution.cc` lines 1147–1252):
recompute `_mMat = Cᵀ(VC)` and `_bVec = Cᵀ(VY)`, choose `_lambda`, then call
`KernelSolution::solve(_mMat + _lambda * _hMat, _bVec)`.  The
`estimateRisk` grid search is the oracle `riskLambda`; `eig` is the
eigensolver oracle of the base solver.  Returns the chosen `_lambda`
together with the base solver's result. -/
def regularizedSolve {n P : ℕ} (cMat : Matrix (Fin P) (Fin n) ℚ)
    (ivVec iVec : Fin P → ℚ) (hMat : Matrix (Fin n) (Fin n) ℚ)
    (pol : RegPolicy) (riskLambda : ℚ → ℚ)
    (eig : Option (Matrix (Fin n) (Fin n) ℚ × (Fin n → ℚ))) :
    Except KError (ℚ × KSolvedBy × (Fin n → ℚ)) :=
  match chosenLambda (cMat.transpose * (Matrix.diagonal ivVec * cMat)) hMat pol
      riskLambda with
  | Except.error e => Except.error e
  | Except.ok lam =>
      match solveLin
          (cMat.transpose * (Matrix.diagonal ivVec * cMat) + lam • hMat)
          (cMat.transpose *ᵥ (Matrix.diagonal ivVec *ᵥ iVec)) eig with
      | Except.error _ => Except.error KError.numerical
      | Except.ok res => Except.ok (lam, res)

/-- Outcome record of `KernelCandidate::_buildKernelSolution`: whether the
candidate status was set to `BAD` by the condition-number gate, whether `solve()`
was reached, and which slot (`pca` when `_isInitialized`, else `orig`) the
freshly built solution went to. -/
structure BuildKSOutcome where
  statusSetBAD : Bool
  solveCalled : Bool
  slotIsPca : Bool
  deriving DecidableEq, Repr

/-- `KernelCandidate::_buildKernelSolution(basisList, hMat)`
(`KernelCandidate.cc` lines 135–217).  `hasH` is `hMat.size() > 0`,
`isInit` is `_isInitialized`; `buildResult` is the outcome of the freshly
built solution's `build(...)` (which may throw), `condNumber` its
`getConditionNumber(ctype)` and `solveResult` the outcome of `solve()`.
All four (regularized × slot) paths share the gate: when
`checkConditionNumber` holds and the condition number exceeds
`maxConditionNumber`, the status is set `BAD` and the method returns
without solving and without throwing. -/
def buildKernelSolution (hasH isInit checkCond : Bool) (maxCond : ℚ)
    (ctype : String) (buildResult : Except KError Unit) (condNumber : ℚ)
    (solveResult : Except KError Unit) : Except KError BuildKSOutcome :=
  if ctype = "SVD" ∨ ctype = "EIGENVALUE" then
    if hasH then
      if isInit then
        match buildResult with
        | Except.error e => Except.error e
        | Except.ok _ =>
            if checkCond ∧ maxCond < condNumber then
              Except.ok { statusSetBAD := true, solveCalled := false, slotIsPca := true }
            else
              match solveResult with
              | Except.error e => Except.error e
              | Except.ok _ =>
                  Except.ok { statusSetBAD := false, solveCalled := true, slotIsPca := true }
      else
        match buildResult with
        | Except.error e => Except.error e
        | Except.ok _ =>
            if checkCond ∧ maxCond < condNumber then
              Except.ok { statusSetBAD := true, solveCalled := false, slotIsPca := false }
            else
              match solveResult with
              | Except.error e => Except.error e
              | Except.ok _ =>
                  Except.ok { statusSetBAD := false, solveCalled := true, slotIsPca := false }
    else
      if isInit then
        match buildResult with
        | Except.error e => Except.error e
        | Except.ok _ =>
            if checkCond ∧ maxCond < condNumber then
              Except.ok { statusSetBAD := true, solveCalled := false, slotIsPca := true }
            else
              match solveResult with
              | Except.error e => Except.error e
              | Except.ok _ =>
                  Except.ok { statusSetBAD := false, solveCalled := true, slotIsPca := true }
      else
        match buildResult with
        | Except.error e => Except.error e
        | Except.ok _ =>
            if checkCond ∧ maxCond < condNumber then
              Except.ok { statusSetBAD := true, solveCalled := false, slotIsPca := false }
            else
              match solveResult with
              | Except.error e => Except.error e
              | Except.ok _ =>
                  Except.ok { statusSetBAD := false, solveCalled := true, slotIsPca := false }
  else Except.error KError.typeError

/-- View a `Fin`-indexed matrix as a `ℕ`-indexed one (entries outside the
stored size read as 0). -/
def toFunM {P np : ℕ} (A : Matrix (Fin P) (Fin np) ℚ) : ℕ → ℕ → ℚ :=
  fun i j => if h : i < P ∧ j < np then A ⟨i, h.1⟩ ⟨j, h.2⟩ else 0

/-- View a `Fin`-indexed vector as a `ℕ`-indexed one. -/
def toFunV {P : ℕ} (v : Fin P → ℚ) : ℕ → ℚ :=
  fun i => if h : i < P then v ⟨i, h⟩ else 0

/-- View a `ℕ`-indexed matrix as a square `Fin`-indexed one. -/
def toFinM (n : ℕ) (A : ℕ → ℕ → ℚ) : Matrix (Fin n) (Fin n) ℚ :=
  fun i j => A i j

/-- View a `ℕ`-indexed vector as a `Fin`-indexed one. -/
def toFinV (n : ℕ) (b : ℕ → ℚ) : Fin n → ℚ :=
  fun i => b i

/-- The member fields of a `StaticKernelSolution` (dynamically sized Eigen
members are `ℕ`-indexed with the current parameter count in `dim`).
`kernel` holds the `LinearCombinationKernel` parameters. -/
structure StaticFields where
  fitForBackground : Bool
  dim : ℕ
  cMat : ℕ → ℕ → ℚ
  ivVec : ℕ → ℚ
  iVec : ℕ → ℚ
  mMat : ℕ → ℕ → ℚ
  bVec : ℕ → ℚ
  aVec : Option (ℕ → ℚ)
  solvedBy : KSolvedBy
  kernel : List ℚ
  background : ℚ
  kSum : ℚ

/-- The state established by the `StaticKernelSolution` constructor
(`KernelSolution.cc` lines 194–212): empty matrices, `_solvedBy = NONE`,
`_background = 0`, `_kSum = 0`, kernel parameters zeroed. -/
def initState (fitBg : Bool) (nBases : ℕ) : StaticFields :=
  { fitForBackground := fitBg
    dim := 0
    cMat := fun _ _ => 0
    ivVec := fun _ => 0
    iVec := fun _ => 0
    mMat := fun _ _ => 0
    bVec := fun _ => 0
    aVec := none
    solvedBy := KSolvedBy.NONE
    kernel := List.replicate nBases 0
    background := 0
    kSum := 0 }

/-- `StaticKernelSolution::build` as a mutation of the solution object.  The
source performs both variance checks before writing any member, so a throw
(`Option KError` result) leaves every field of `st` untouched; a successful
build overwrites exactly `_cMat`, `_ivVec`, `_iVec`, `_mMat`, `_bVec`. -/
def buildMutate (st : StaticFields) (nK : ℕ) {N P : ℕ}
    (conv : Fin nK → Fin (N + 1) → ℚ) (science variance : Fin (N + 1) → ℚ)
    (gr : Fin P → Fin (N + 1)) : StaticFields × Option KError :=
  match buildStatic nK st.fitForBackground conv science variance gr with
  | Except.error e => (st, some e)
  | Except.ok res =>
      ({ st with
          dim := nK + bgCols st.fitForBackground
          cMat := toFunM res.cMat
          ivVec := toFunV res.ivVec
          iVec := toFunV res.iVec
          mMat := toFunM res.mMat
          bVec := toFunV res.bVec }, none)

/-- `MaskedKernelSolution::buildWithMask` as a mutation of the solution
object; like `buildMutate`, the variance checks precede every member
assignment. -/
def buildWithMaskMutate (st : StaticFields) (nK : ℕ) {N : ℕ}
    (conv : Fin nK → Fin (N + 1) → ℚ) (science variance : Fin (N + 1) → ℚ)
    (finalMask : Fin (N + 1) → ℤ) : StaticFields × Option KError :=
  match buildWithMask nK st.fitForBackground conv science variance finalMask with
  | Except.error e => (st, some e)
  | Except.ok res =>
      ({ st with
          dim := nK + bgCols st.fitForBackground
          cMat := toFunM res.cMat
          ivVec := toFunV res.ivVec
          iVec := toFunV res.iVec
          mMat := toFunM res.mMat
          bVec := toFunV res.bVec }, none)

/-- `KernelSolution::solve()` as a mutation of the solution object
(`KernelSolution.cc` lines 131–190): on success `_solvedBy` and `_aVec` are
assigned; on the eigensolver-throw path `_solvedBy` is set to `NONE` and the
method throws before reaching the `_aVec = aVec` assignment, so `_aVec`
keeps its previous value. -/
def solveMutate (st : StaticFields)
    (eig : Option (Matrix (Fin st.dim) (Fin st.dim) ℚ × (Fin st.dim → ℚ))) :
    StaticFields :=
  match solveLin (toFinM st.dim st.mMat) (toFinV st.dim st.bVec) eig with
  | Except.ok (sb, a) => { st with solvedBy := sb, aVec := some (toFunV a) }
  | Except.error sbN => { st with solvedBy := sbN }

/-- States of a `StaticKernelSolution` (or `MaskedKernelSolution`) reachable
through its public construct/build/solve interface. -/
inductive ReachableState : StaticFields → Prop where
  | construct (fitBg : Bool) (nBases : ℕ) : ReachableState (initState fitBg nBases)
  | buildT {st : StaticFields} (h : ReachableState st) (nK : ℕ) {N P : ℕ}
      (conv : Fin nK → Fin (N + 1) → ℚ) (science variance : Fin (N + 1) → ℚ)
      (gr : Fin P → Fin (N + 1)) :
      ReachableState (buildMutate st nK conv science variance gr).1
  | buildMaskT {st : StaticFields} (h : ReachableState st) (nK : ℕ) {N : ℕ}
      (conv : Fin nK → Fin (N + 1) → ℚ) (science variance : Fin (N + 1) → ℚ)
      (finalMask : Fin (N + 1) → ℤ) :
      ReachableState (buildWithMaskMutate st nK conv science variance finalMask).1
  | solveT {st : StaticFields} (h : ReachableState st)
      (eig : Option (Matrix (Fin st.dim) (Fin st.dim) ℚ × (Fin st.dim → ℚ))) :
      ReachableState (solveMutate st eig)

/-- `StaticKernelSolution::getKernel` (`KernelSolution.cc` lines 214–220). -/
def getKernel (st : StaticFields) : Except KError (List ℚ) :=
  if st.solvedBy = KSolvedBy.NONE then Except.error KError.notSolved
  else Except.ok st.kernel

/-- `StaticKernelSolution::makeKernelImage` (`KernelSolution.cc` lines
222–232); the image is computed from `_kernel` by the external
`computeImage`, modelled here by the kernel parameters it is a function of. -/
def makeKernelImage (st : StaticFields) : Except KError (List ℚ) :=
  if st.solvedBy = KSolvedBy.NONE then Except.error KError.notSolved
  else Except.ok st.kernel

/-- `StaticKernelSolution::getBackground` (`KernelSolution.cc` lines 234–240). -/
def getBackground (st : StaticFields) : Except KError ℚ :=
  if st.solvedBy = KSolvedBy.NONE then Except.error KError.notSolved
  else Except.ok st.background

/-- `StaticKernelSolution::getKsum` (`KernelSolution.cc` lines 242–248). -/
def getKsum (st : StaticFields) : Except KError ℚ :=
  if st.solvedBy = KSolvedBy.NONE then Except.error KError.notSolved
  else Except.ok st.kSum

/-- `StaticKernelSolution::getSolutionPair` (`KernelSolution.cc` lines
250–258). -/
def getSolutionPair (st : StaticFields) : Except KError (List ℚ × ℚ) :=
  if st.solvedBy = KSolvedBy.NONE then Except.error KError.notSolved
  else Except.ok (st.kernel, st.background)

/-- Run a fallible check over a list sequentially, stopping at the first
failure — the shape of the coefficient-copy loops of `_setKernel`. -/
def exceptMapList {α β ε : Type} (f : α → Except ε β) : List α → Except ε (List β)
  | [] => Except.ok []
  | a :: t =>
    match f a with
    | Except.error e => Except.error e
    | Except.ok b =>
        match exceptMapList f t with
        | Except.error e => Except.error e
        | Except.ok bs => Except.ok (b :: bs)

/-- Errors thrown by `StaticKernelSolution::_setKernel` (`KernelSolution.cc`
lines 421–458), distinguished by their message. -/
inductive StaticSetErr where
  | notSolved
  | mismatch
  | kernelNan (idx : ℕ)
  | backgroundNan (idx : ℕ)
  deriving DecidableEq, Repr

/-- `StaticKernelSolution::_setKernel` (`KernelSolution.cc` lines 421–458).
`aVec` is `_aVec` with `none` for a NaN entry; returns the kernel parameter
vector and the background (`background0` = the previous `_background`,
untouched when `_fitForBackground` is false).  The kernel-sum computation
between the two NaN checks is external (`computeImage`) and does not affect
the control flow modelled here. -/
def staticSetKernel (solvedBy : KSolvedBy) (fitBg : Bool)
    (nKernelParameters : ℕ) (aVec : List (Option ℚ)) (background0 : ℚ) :
    Except StaticSetErr (List ℚ × ℚ) :=
  if solvedBy = KSolvedBy.NONE then Except.error StaticSetErr.notSolved
  else if aVec.length ≠ nKernelParameters + bgCols fitBg then
    Except.error StaticSetErr.mismatch
  else
    match exceptMapList (fun idx =>
      match aVec.getD idx none with
      | none => Except.error (StaticSetErr.kernelNan idx)
      | some v => Except.ok v) (List.range nKernelParameters) with
    | Except.error e => Except.error e
    | Except.ok kValues =>
      if fitBg then
        match aVec.getD (aVec.length - 1) none with
        | none => Except.error (StaticSetErr.backgroundNan (aVec.length - 1))
        | some v => Except.ok (kValues, v)
      else Except.ok (kValues, background0)

/-- The spatial-model sizes and flags fixed by the `SpatialKernelSolution`
constructor (`KernelSolution.cc` lines 1283–1335). -/
structure SpatialParams where
  nbases : ℕ
  nkt : ℕ
  nbt : ℕ
  cft : Bool
  fitBg : Bool

/-- `_nt`: total number of unknowns (`KernelSolution.cc` lines 1311–1316). -/
def SpatialParams.nt (p : SpatialParams) : ℕ :=
  if p.cft then (p.nbases - 1) * p.nkt + 1 + p.nbt else p.nbases * p.nkt + p.nbt

/-- `m0` of `addConstraint`: first basis index of the spatial blocks. -/
def SpatialParams.m0 (p : SpatialParams) : ℕ := if p.cft then 1 else 0

/-- `dm` of `addConstraint`: row/column shift caused by the constant first
term (`_nkt - 1` when `_constantFirstTerm`, else 0). -/
def SpatialParams.dm (p : SpatialParams) : ℕ := if p.cft then p.nkt - 1 else 0

/-- `mb` of `addConstraint`: start of the background block, `_nt - _nbt`. -/
def SpatialParams.mb (p : SpatialParams) : ℕ := p.nt - p.nbt

/-- Start row/column of basis `m`'s spatial block: `m*_nkt - dm`. -/
def blockStart (p : SpatialParams) (m : ℕ) : ℕ := m * p.nkt - p.dm

/-- One Eigen `block(r, c, h, w) += …` operation: `val` gives the added
entries in block-relative coordinates. -/
structure BlockOp where
  r : ℕ
  c : ℕ
  h : ℕ
  w : ℕ
  val : ℕ → ℕ → ℚ

/-- Apply one block-accumulate operation to a `ℕ`-indexed matrix. -/
def applyOp (M : ℕ → ℕ → ℚ) (op : BlockOp) : ℕ → ℕ → ℚ :=
  fun i j =>
    if (op.r ≤ i ∧ i < op.r + op.h) ∧ (op.c ≤ j ∧ j < op.c + op.w) then
      M i j + op.val (i - op.r) (j - op.c)
    else M i j

/-- Apply a sequence of block-accumulate operations in order. -/
def applyOps (M : ℕ → ℕ → ℚ) (ops : List BlockOp) : ℕ → ℕ → ℚ :=
  ops.foldl applyOp M

/-- The amount a single operation adds to entry `(i, j)`. -/
def opContrib (i j : ℕ) (op : BlockOp) : ℚ :=
  if (op.r ≤ i ∧ i < op.r + op.h) ∧ (op.c ≤ j ∧ j < op.c + op.w) then
    op.val (i - op.r) (j - op.c)
  else 0

/-- One Eigen `segment(s, len) += …` operation on a vector. -/
structure SegOp where
  s : ℕ
  len : ℕ
  val : ℕ → ℚ

/-- Apply one segment-accumulate operation to a `ℕ`-indexed vector. -/
def applySeg (b : ℕ → ℚ) (op : SegOp) : ℕ → ℚ :=
  fun i => if op.s ≤ i ∧ i < op.s + op.len then b i + op.val (i - op.s) else b i

/-- Apply a sequence of segment-accumulate operations in order. -/
def applySegs (b : ℕ → ℚ) (ops : List SegOp) : ℕ → ℚ :=
  ops.foldl applySeg b

/-- The amount a single segment operation adds to entry `i`. -/
def segContrib (i : ℕ) (op : SegOp) : ℚ :=
  if op.s ≤ i ∧ i < op.s + op.len then op.val (i - op.s) else 0

/-- The `_mMat` accumulations performed for basis `m1` in the main loop of
`SpatialKernelSolution::addConstraint` (`KernelSolution.cc` lines 1416–1433):
the diagonal kernel-kernel block (upper triangle of `pKpKt * qMat(m1,m1)`),
the off-diagonal kernel-kernel blocks `qMat(m1,m2) * pKpKt` for `m2 > m1`,
and — when fitting a background — the cross block `qMat(m1,nbases) * pKpBt`. -/
def m1Ops (p : SpatialParams) (q : ℕ → ℕ → ℚ) (pK pB : ℕ → ℚ) (m1 : ℕ) :
    List BlockOp :=
  { r := blockStart p m1, c := blockStart p m1, h := p.nkt, w := p.nkt,
    val := fun u v => if u ≤ v then (pK u * pK v) * q m1 m1 else 0 } ::
  (((List.range' (m1 + 1) (p.nbases - (m1 + 1))).map (fun m2 =>
      { r := blockStart p m1, c := blockStart p m2, h := p.nkt, w := p.nkt,
        val := fun u v => q m1 m2 * (pK u * pK v) })) ++
   (if p.fitBg then
      [{ r := blockStart p m1, c := p.mb, h := p.nkt, w := p.nbt,
         val := fun u v => q m1 p.nbases * (pK u * pB v) }]
    else []))

/-- The `_mMat` accumulations of the constant-first-term block of
`addConstraint` (`KernelSolution.cc` lines 1400–1413): the `(0,0)` entry,
the row-0 kernel blocks `qMat(0,m2) * pKᵀ`, and — when fitting a
background — the row-0 background block `qMat(0,nbases) * pBᵀ`.  Every
operation writes row 0 only. -/
def cftRowOps (p : SpatialParams) (q : ℕ → ℕ → ℚ) (pK pB : ℕ → ℚ) :
    List BlockOp :=
  { r := 0, c := 0, h := 1, w := 1, val := fun _ _ => q 0 0 } ::
  (((List.range' 1 (p.nbases - 1)).map (fun m2 =>
      { r := 0, c := blockStart p m2, h := 1, w := p.nkt,
        val := fun _ v => q 0 m2 * pK v })) ++
   (if p.fitBg then
      [{ r := 0, c := p.mb, h := 1, w := p.nbt,
         val := fun _ v => q 0 p.nbases * pB v }]
    else []))

/-- The background-background accumulation of `addConstraint`
(`KernelSolution.cc` lines 1435–1438): the upper triangle of
`pBpBt * qMat(nbases,nbases)` added at `(mb, mb)`. -/
def bgBlockOps (p : SpatialParams) (q : ℕ → ℕ → ℚ) (pB : ℕ → ℚ) :
    List BlockOp :=
  if p.fitBg then
    [{ r := p.mb, c := p.mb, h := p.nbt, w := p.nbt,
       val := fun u v =>
         if u ≤ v then (pB u * pB v) * q p.nbases p.nbases else 0 }]
  else []

/-- All `_mMat` accumulations of one `addConstraint` call
(`KernelSolution.cc` lines 1400–1440), in source order: the
constant-first-term row, then the main loop over `m1`, then the
background-background block. -/
def constraintOps (p : SpatialParams) (q : ℕ → ℕ → ℚ) (pK pB : ℕ → ℚ) :
    List BlockOp :=
  (if p.cft then cftRowOps p q pK pB else []) ++
  ((List.range' p.m0 (p.nbases - p.m0)).flatMap (m1Ops p q pK pB)) ++
  bgBlockOps p q pB

/-- All `_bVec` accumulations of one `addConstraint` call, in source order:
`bVec(0) += wVec(0)` for the constant first term, the kernel segments
`wVec(m1) * pK`, and the background segment `wVec(nbases) * pB`. -/
def constraintSegs (p : SpatialParams) (w : ℕ → ℚ) (pK pB : ℕ → ℚ) :
    List SegOp :=
  (if p.cft then [{ s := 0, len := 1, val := fun _ => w 0 }] else []) ++
  ((List.range' p.m0 (p.nbases - p.m0)).map (fun m1 =>
     { s := blockStart p m1, len := p.nkt, val := fun u => w m1 * pK u })) ++
  (if p.fitBg then
     [{ s := p.mb, len := p.nbt, val := fun u => w p.nbases * pB u }]
   else [])

/-- `SpatialKernelSolution::addConstraint(xCenter, yCenter, qMat, wVec)`
(`KernelSolution.cc` lines 1337–1448).  `kFunc idx x y` (resp. `bFunc`) is
the value of the spatial kernel (resp. background) function at `(x, y)` with
unit parameter `idx` — the `pK`/`pB` vectors of the source.  Returns the
updated `(_mMat, _bVec)`. -/
def addConstraint (p : SpatialParams) (M : ℕ → ℕ → ℚ) (b : ℕ → ℚ) (x y : ℚ)
    (kFunc bFunc : ℕ → ℚ → ℚ → ℚ) (q : ℕ → ℕ → ℚ) (w : ℕ → ℚ) :
    (ℕ → ℕ → ℚ) × (ℕ → ℚ) :=
  let pK : ℕ → ℚ := fun idx => kFunc idx x y
  let pB : ℕ → ℚ := fun idx => bFunc idx x y
  (applyOps M (constraintOps p q pK pB), applySegs b (constraintSegs p w pK pB))

/-- The symmetrization loop of `SpatialKernelSolution::solve`
(`KernelSolution.cc` lines 1463–1467): for `i < j < nt` the entry `(j, i)`
is overwritten with `(i, j)` — the upper triangle is copied onto the lower
triangle. -/
def symmetrizeFill (nt : ℕ) (M : ℕ → ℕ → ℚ) : ℕ → ℕ → ℚ :=
  fun i j => if j < i ∧ i < nt then M j i else M i j

/-- `SpatialKernelSolution::solve` (`KernelSolution.cc` lines 1461–1477):
symmetrize `_mMat`, then run the base `KernelSolution::solve` on it. -/
def spatialSolve (p : SpatialParams) (M : ℕ → ℕ → ℚ) (b : ℕ → ℚ)
    (eig : Option (Matrix (Fin p.nt) (Fin p.nt) ℚ × (Fin p.nt → ℚ))) :
    Except KSolvedBy (KSolvedBy × (Fin p.nt → ℚ)) :=
  solveLin (toFinM p.nt (symmetrizeFill p.nt M)) (toFinV p.nt b) eig

/-- Errors thrown by `SpatialKernelSolution::_setKernel` (`KernelSolution.cc`
lines 1488–1566).  The kernel-coefficient messages (`I.`/`II.`/`III.`)
embed the reported condition number; the background message does not. -/
inductive SpatialSetErr where
  | kernelNan (idx : ℕ) (condNumber : ℚ)
  | backgroundNan (idx : ℕ)
  deriving DecidableEq, Repr

/-- Whether the exception message carries the reported condition number:
`"… solution %d (nan).  Condition number = %.3e"` for the kernel
coefficients versus `"… background solution %d (nan)"` for the background
coefficients. -/
def SpatialSetErr.messageHasCondNumber : SpatialSetErr → Bool
  | SpatialSetErr.kernelNan _ _ => true
  | SpatialSetErr.backgroundNan _ => false

/-- First `_aVec` index of basis `i`'s spatial coefficients in
`SpatialKernelSolution::_setKernel`: the running `idx` reaches
`1 + (i-1)*_nkt` past the constant first term, or `i*_nkt` without one. -/
def kIdxStart (p : SpatialParams) (i : ℕ) : ℕ :=
  if p.cft then (if i = 0 then 0 else 1 + (i - 1) * p.nkt) else i * p.nkt

/-- Number of spatial coefficients read for basis `i`: one for the constant
first term, `_nkt` otherwise. -/
def kIdxLen (p : SpatialParams) (i : ℕ) : ℕ :=
  if p.cft ∧ i = 0 then 1 else p.nkt

/-- The background-coefficient loop of `SpatialKernelSolution::_setKernel`
(`KernelSolution.cc` lines 1550–1565): indices `_nt - _nbt + i`, NaN throws
without the condition number in the message; without a background fit the
single coefficient is set to 0. -/
def spatialBgCoeffs (p : SpatialParams) (aVec : ℕ → Option ℚ) :
    Except SpatialSetErr (List ℚ) :=
  if p.fitBg then
    exceptMapList (fun i =>
      match aVec (p.nt - p.nbt + i) with
      | none => Except.error (SpatialSetErr.backgroundNan (p.nt - p.nbt + i))
      | some v => Except.ok v) (List.range p.nbt)
  else Except.ok [0]

/-- `SpatialKernelSolution::_setKernel` (`KernelSolution.cc` lines
1488–1566).  `aVec` is `_aVec` with `none` for NaN; `cNumber` is the
condition number reported at entry (`getConditionNumber(EIGENVALUE)`).
Returns the per-basis spatial kernel coefficients and the background
coefficients.  The kernel-sum computation is external and skipped. -/
def spatialSetKernel (p : SpatialParams) (aVec : ℕ → Option ℚ) (cNumber : ℚ) :
    Except SpatialSetErr (List (List ℚ) × List ℚ) :=
  if p.nkt = 1 then
    match exceptMapList (fun i =>
      match aVec i with
      | none => Except.error (SpatialSetErr.kernelNan i cNumber)
      | some v => Except.ok v) (List.range p.nbases) with
    | Except.error e => Except.error e
    | Except.ok kCoeffs =>
      match spatialBgCoeffs p aVec with
      | Except.error e => Except.error e
      | Except.ok bg => Except.ok (kCoeffs.map (fun v => [v]), bg)
  else
    match exceptMapList (fun i =>
      exceptMapList (fun j =>
        match aVec (kIdxStart p i + j) with
        | none => Except.error (SpatialSetErr.kernelNan (kIdxStart p i + j) cNumber)
        | some v => Except.ok v) (List.range (kIdxLen p i))) (List.range p.nbases) with
    | Except.error e => Except.error e
    | Except.ok kCoeffs =>
      match spatialBgCoeffs p aVec with
      | Except.error e => Except.error e
      | Except.ok bg => Except.ok (kCoeffs, bg)

/-- The `_aVec` positions read as kernel coefficients by
`SpatialKernelSolution::_setKernel`. -/
def spatialKernelIdxList (p : SpatialParams) : List ℕ :=
  if p.nkt = 1 then List.range p.nbases
  else (List.range p.nbases).flatMap (fun i =>
    (List.range (kIdxLen p i)).map (fun j => kIdxStart p i + j))

/-- The `_aVec` positions read as background coefficients by
`SpatialKernelSolution::_setKernel` (empty without a background fit). -/
def spatialBgIdxList (p : SpatialParams) : List ℕ :=
  if p.fitBg then (List.range p.nbt).map (fun i => p.nt - p.nbt + i) else []

/-! ## Concrete instances used by witnesses and counterexamples -/

/-- A 1-basis, 1-pixel convolution oracle with constant value 2. -/
def c2conv : Fin 1 → Fin 1 → ℚ := fun _ _ => 2

/-- The identity good-region enumeration on a 1-pixel frame. -/
def c2gr : Fin 1 → Fin 1 := fun p => p

/-- The build result of `buildStatic 1 true c2conv (fun _ => 3) (fun _ => 4)
c2gr`. -/
def c2res : StaticBuildResult 1 (1 + bgCols true) :=
  { cMat := staticC 1 true c2conv c2gr
    ivVec := fun p => ((fun _ : Fin 1 => (4 : ℚ)) (c2gr p))⁻¹
    iVec := fun p => (fun _ : Fin 1 => (3 : ℚ)) (c2gr p)
    mMat := (staticC 1 true c2conv c2gr).transpose *
      (Matrix.diagonal (fun p => ((fun _ : Fin 1 => (4 : ℚ)) (c2gr p))⁻¹) *
        staticC 1 true c2conv c2gr)
    bVec := (staticC 1 true c2conv c2gr).transpose *ᵥ
      (Matrix.diagonal (fun p => ((fun _ : Fin 1 => (4 : ℚ)) (c2gr p))⁻¹) *ᵥ
        fun p => (fun _ : Fin 1 => (3 : ℚ)) (c2gr p)) }

/-- A 1-basis, 1-pixel convolution oracle with constant value 1. -/
def ceConvOne : Fin 1 → Fin 1 → ℚ := fun _ _ => 1

/-- A 1-basis, 1-pixel convolution oracle that is identically zero, so the
resulting normal matrix is singular. -/
def ceConvZero : Fin 1 → Fin 1 → ℚ := fun _ _ => 0

/-- The build result installed by the first build of the C8 run. -/
def ceRes1 : StaticBuildResult 1 (1 + bgCols false) :=
  { cMat := staticC 1 false ceConvOne (fun p : Fin 1 => p)
    ivVec := fun _ => (1 : ℚ)⁻¹
    iVec := fun _ => 1
    mMat := (staticC 1 false ceConvOne (fun p : Fin 1 => p)).transpose *
      (Matrix.diagonal (fun _ : Fin 1 => (1 : ℚ)⁻¹) *
        staticC 1 false ceConvOne (fun p : Fin 1 => p))
    bVec := (staticC 1 false ceConvOne (fun p : Fin 1 => p)).transpose *ᵥ
      (Matrix.diagonal (fun _ : Fin 1 => (1 : ℚ)⁻¹) *ᵥ fun _ => 1) }

/-- The (singular) build result installed by the second build of the C8
run. -/
def ceRes3 : StaticBuildResult 1 (1 + bgCols false) :=
  { cMat := staticC 1 false ceConvZero (fun p : Fin 1 => p)
    ivVec := fun _ => (1 : ℚ)⁻¹
    iVec := fun _ => 0
    mMat := (staticC 1 false ceConvZero (fun p : Fin 1 => p)).transpose *
      (Matrix.diagonal (fun _ : Fin 1 => (1 : ℚ)⁻¹) *
        staticC 1 false ceConvZero (fun p : Fin 1 => p))
    bVec := (staticC 1 false ceConvZero (fun p : Fin 1 => p)).transpose *ᵥ
      (Matrix.diagonal (fun _ : Fin 1 => (1 : ℚ)⁻¹) *ᵥ fun _ => 0) }

/-- State after the first (successful) build of the C8 counterexample run. -/
def ceStA : StaticFields :=
  { fitForBackground := false
    dim := 1
    cMat := toFunM ceRes1.cMat
    ivVec := toFunV ceRes1.ivVec
    iVec := toFunV ceRes1.iVec
    mMat := toFunM ceRes1.mMat
    bVec := toFunV ceRes1.bVec
    aVec := none
    solvedBy := KSolvedBy.NONE
    kernel := List.replicate 1 0
    background := 0
    kSum := 0 }

/-- State after the first (successful, LU) solve: `_aVec` is assigned. -/
def ceStB : StaticFields :=
  { ceStA with
    solvedBy := KSolvedBy.LU
    aVec := some (toFunV (matInv (toFinM 1 (toFunM ceRes1.mMat)) *ᵥ
      toFinV 1 (toFunV ceRes1.bVec))) }

/-- State after the second build, which installs a singular normal matrix;
`_aVec` and `_solvedBy` are untouched by `build`. -/
def ceStC : StaticFields :=
  { ceStB with
    dim := 1
    cMat := toFunM ceRes3.cMat
    ivVec := toFunV ceRes3.ivVec
    iVec := toFunV ceRes3.iVec
    mMat := toFunM ceRes3.mMat
    bVec := toFunV ceRes3.bVec }

/-- State after the second solve, whose eigendecomposition throws:
`_solvedBy` is reset to `NONE` but `_aVec` still holds the first solve's
coefficients. -/
def ceStD : StaticFields :=
  { ceStC with solvedBy := KSolvedBy.NONE }

/-- Spatial parameters with one basis, constant spatial function and a
one-parameter background. -/
def c6p : SpatialParams :=
  { nbases := 1, nkt := 1, nbt := 1, cft := false, fitBg := true }

/-- A solved coefficient vector whose only NaN is the background entry. -/
def c6a : ℕ → Option ℚ := fun i => if i = 1 then none else some 1

/-! ## Helper lemmas -/

theorem matInv_eq_inv {n : ℕ} (M : Matrix (Fin n) (Fin n) ℚ) : matInv M = M⁻¹ := by
  rw [matInv, Matrix.inv_def, Ring.inverse_eq_inv]

theorem imageMin_le {N : ℕ} (v : Fin (N + 1) → ℚ) (i : Fin (N + 1)) :
    imageMin v ≤ v i :=
  Finset.inf'_le v (Finset.mem_univ i)

/-! ## Claim theorems: linear solver and condition number -/

/-- Claim C1: `KernelSolution::solve(M, b)` returns `a = M⁻¹ b` with
`solvedBy = LU` when `M` is invertible (`det M ≠ 0`); otherwise it returns
`a = R·diag(ẽ)·Rᵀ·b` with `solvedBy = EIGENVECTOR`, where `(R, e)` is the
symmetric eigendecomposition `M = R·diag(e)·Rᵀ` and `ẽ` inverts the nonzero
eigenvalues, leaving zeros at zero; and when the eigendecomposition throws,
`solvedBy` is set to `NONE` and the call fails. -/
theorem kernelSolution_solve_spec {n : ℕ} (M : Matrix (Fin n) (Fin n) ℚ)
    (b : Fin n → ℚ) (eig : Option (Matrix (Fin n) (Fin n) ℚ × (Fin n → ℚ))) :
    (M.det ≠ 0 → solveLin M b eig = Except.ok (KSolvedBy.LU, M⁻¹ *ᵥ b)) ∧
    (∀ r e, M.det = 0 → eig = some (r, e) →
      M = r * Matrix.diagonal e * r.transpose →
      solveLin M b eig = Except.ok (KSolvedBy.EIGENVECTOR,
        (r * Matrix.diagonal (pinvDiag e) * r.transpose) *ᵥ b)) ∧
    (M.det = 0 → eig = none → solveLin M b eig = Except.error KSolvedBy.NONE) := by
  refine ⟨fun h => ?_, fun r e h0 heig _ => ?_, fun h0 hnone => ?_⟩
  · rw [solveLin.eq_def, if_pos h, matInv_eq_inv]
  · subst heig
    rw [solveLin.eq_def, if_neg (by simp [h0])]
  · subst hnone
    rw [solveLin.eq_def, if_neg (by simp [h0])]

theorem kernelSolution_solve_spec_witness :
    solveLin !![(2 : ℚ)] ![3] none =
      Except.ok (KSolvedBy.LU, (!![(2 : ℚ)])⁻¹ *ᵥ ![3]) :=
  (kernelSolution_solve_spec !![(2 : ℚ)] ![3] none).1
    (by simp [Matrix.det_fin_one])

/-- Claim C4 (amended): with `e` the eigenvalue vector returned by the
symmetric eigensolver on `M` and `s` the singular-value vector of `M`,
`getConditionNumber(M, EIGENVALUE)` returns `maxCoeff e / minCoeff e` — the
ratio of the maximum to the minimum (signed) eigenvalue, with no absolute
value taken — `getConditionNumber(M, SVD)` returns the ratio of the maximum
to the minimum singular value, and any other selector value fails with
`InvalidInput`. -/
theorem getConditionNumber_spec {k : ℕ}
    (M R U V : Matrix (Fin (k + 1)) (Fin (k + 1)) ℚ)
    (eValues sValues : Fin (k + 1) → ℚ) (conditionType : ℕ)
    (heig : M = R * Matrix.diagonal eValues * R.transpose)
    (horth : R * R.transpose = 1)
    (hsvd : M = U * Matrix.diagonal sValues * V.transpose)
    (hUorth : U * U.transpose = 1) (hVorth : V * V.transpose = 1)
    (hsnn : ∀ i, 0 ≤ sValues i) :
    (conditionType = 0 → getConditionNumberK conditionType eValues sValues =
      Except.ok (vecMax eValues / vecMin eValues)) ∧
    (conditionType = 1 → getConditionNumberK conditionType eValues sValues =
      Except.ok (vecMax sValues / vecMin sValues)) ∧
    (conditionType ≠ 0 → conditionType ≠ 1 →
      getConditionNumberK conditionType eValues sValues =
        Except.error KError.invalidInput) := by
  refine ⟨fun h => ?_, fun h => ?_, fun h0 h1 => ?_⟩
  · rw [getConditionNumberK, if_pos h]
  · rw [getConditionNumberK, if_neg (by simp [h]), if_pos h]
  · rw [getConditionNumberK, if_neg h0, if_neg h1]

theorem getConditionNumber_spec_witness :
    getConditionNumberK 0 ![(3 : ℚ)] ![(3 : ℚ)] =
      Except.ok (vecMax ![(3 : ℚ)] / vecMin ![(3 : ℚ)]) :=
  (getConditionNumber_spec !![(3 : ℚ)] !![1] !![1] !![1] ![3] ![3] 0
    (by ext i j; fin_cases i; fin_cases j
        simp [Matrix.mul_apply, Matrix.vecMul_diagonal, Matrix.transpose_apply,
          Fin.sum_univ_one])
    (by ext i j; fin_cases i; fin_cases j
        simp [Matrix.mul_apply, Fin.sum_univ_one, Matrix.one_apply])
    (by ext i j; fin_cases i; fin_cases j
        simp [Matrix.mul_apply, Matrix.vecMul_diagonal, Matrix.transpose_apply,
          Fin.sum_univ_one])
    (by ext i j; fin_cases i; fin_cases j
        simp [Matrix.mul_apply, Fin.sum_univ_one, Matrix.one_apply])
    (by ext i j; fin_cases i; fin_cases j
        simp [Matrix.mul_apply, Fin.sum_univ_one, Matrix.one_apply])
    (by intro i; fin_cases i; norm_num)).1 rfl

/-- Claim C4 counterexample: the symmetric matrix `diag(1, -2)` has
eigendecomposition with orthogonal `R` and (ascending) eigenvalues
`(-2, 1)`; `getConditionNumber(·, EIGENVALUE)` returns
`maxCoeff/minCoeff = 1/(-2) = -1/2`, which differs from the ratio of the
maximum to the minimum absolute eigenvalue, `2/1 = 2`.  So the claim's
"ratio of the maximum to the minimum absolute eigenvalue" is false on the
code. -/
theorem getConditionNumber_abs_counterexample :
    (!![(1 : ℚ), 0; 0, -2] =
      !![(0 : ℚ), 1; 1, 0] * Matrix.diagonal ![(-2 : ℚ), 1] *
        (!![(0 : ℚ), 1; 1, 0]).transpose) ∧
    (!![(0 : ℚ), 1; 1, 0] * (!![(0 : ℚ), 1; 1, 0]).transpose = 1) ∧
    ((!![(1 : ℚ), 0; 0, -2]).transpose = !![(1 : ℚ), 0; 0, -2]) ∧
    getConditionNumberK 0 ![(-2 : ℚ), 1] ![2, 1] = Except.ok (-(1 / 2)) ∧
    vecMax (fun i => |(![(-2 : ℚ), 1]) i|) /
      vecMin (fun i => |(![(-2 : ℚ), 1]) i|) = 2 ∧
    (-(1 / 2) : ℚ) ≠ 2 := by
  refine ⟨?_, ?_, ?_, ?_, ?_, by norm_num⟩
  · ext i j
    fin_cases i <;> fin_cases j <;>
      norm_num [Matrix.mul_apply, Matrix.vecMul_diagonal, Matrix.transpose_apply,
        Fin.sum_univ_two, Matrix.vecHead, Matrix.vecTail]
  · ext i j
    fin_cases i <;> fin_cases j <;>
      norm_num [Matrix.mul_apply, Fin.sum_univ_two, Matrix.one_apply,
        Matrix.transpose_apply, Matrix.vecHead, Matrix.vecTail]
  · ext i j
    fin_cases i <;> fin_cases j <;> norm_num
  · rw [getConditionNumberK, if_pos rfl]
    norm_num [vecMax, vecMin, Fin.last]
  · norm_num [vecMax, vecMin, Fin.last]

/-! ## Claim theorems: regularized solver -/

/-- Claim C5: in `RegularizedKernelSolution::solve`, `lambdaType = "absolute"`
chooses `λ = lambdaValue`; `"relative"` chooses
`λ = (trace M / trace H) · lambdaScaling` (with `M = Cᵀ(VC)` the freshly
recomputed normal matrix); an unrecognized `lambdaType` fails; and every
successful solve is the base linear solver applied to `(M + λH, b)`. -/
theorem regularizedKernelSolution_solve_spec {n P : ℕ}
    (cMat : Matrix (Fin P) (Fin n) ℚ) (ivVec iVec : Fin P → ℚ)
    (hMat : Matrix (Fin n) (Fin n) ℚ) (pol : RegPolicy) (riskLambda : ℚ → ℚ)
    (eig : Option (Matrix (Fin n) (Fin n) ℚ × (Fin n → ℚ))) :
    (pol.lambdaType = "absolute" →
      chosenLambda (cMat.transpose * (Matrix.diagonal ivVec * cMat)) hMat pol
        riskLambda = Except.ok pol.lambdaValue) ∧
    (pol.lambdaType = "relative" →
      chosenLambda (cMat.transpose * (Matrix.diagonal ivVec * cMat)) hMat pol
        riskLambda = Except.ok
          ((cMat.transpose * (Matrix.diagonal ivVec * cMat)).trace /
            hMat.trace * pol.lambdaScaling)) ∧
    (pol.lambdaType ≠ "absolute" → pol.lambdaType ≠ "relative" →
     pol.lambdaType ≠ "minimizeBiasedRisk" →
     pol.lambdaType ≠ "minimizeUnbiasedRisk" →
      regularizedSolve cMat ivVec iVec hMat pol riskLambda eig =
        Except.error KError.invalidInput) ∧
    (∀ lam sb a,
      regularizedSolve cMat ivVec iVec hMat pol riskLambda eig =
        Except.ok (lam, sb, a) →
      chosenLambda (cMat.transpose * (Matrix.diagonal ivVec * cMat)) hMat pol
        riskLambda = Except.ok lam ∧
      solveLin (cMat.transpose * (Matrix.diagonal ivVec * cMat) + lam • hMat)
        (cMat.transpose *ᵥ (Matrix.diagonal ivVec *ᵥ iVec)) eig =
        Except.ok (sb, a)) := by
  refine ⟨fun h => ?_, fun h => ?_, fun h1 h2 h3 h4 => ?_, fun lam sb a h => ?_⟩
  · rw [chosenLambda, if_pos h]
  · rw [chosenLambda, if_neg (by simp [h]), if_pos h]
  · rw [regularizedSolve.eq_def]
    rw [chosenLambda, if_neg h1, if_neg h2, if_neg h3, if_neg h4]
  · rw [regularizedSolve.eq_def] at h
    rcases hcl : chosenLambda (cMat.transpose * (Matrix.diagonal ivVec * cMat))
        hMat pol riskLambda with e | lam2
    · rw [hcl] at h
      exact absurd h (by simp)
    · rw [hcl] at h
      dsimp only at h
      rcases hsl : solveLin
          (cMat.transpose * (Matrix.diagonal ivVec * cMat) + lam2 • hMat)
          (cMat.transpose *ᵥ (Matrix.diagonal ivVec *ᵥ iVec)) eig with e2 | res
      · rw [hsl] at h
        exact absurd h (by simp)
      · rw [hsl] at h
        dsimp only at h
        injection h with h3
        rw [Prod.mk.injEq] at h3
        obtain ⟨h4, h5⟩ := h3
        subst h4
        subst h5
        exact ⟨rfl, hsl⟩

theorem regularizedKernelSolution_solve_spec_witness :
    chosenLambda ((!![(1 : ℚ)]).transpose *
        (Matrix.diagonal ![(1 : ℚ)] * !![(1 : ℚ)])) !![(1 : ℚ)]
      { lambdaType := "absolute", lambdaValue := 7, lambdaScaling := 1,
        maxConditionNumber := 1 } (fun x => x) = Except.ok 7 :=
  (regularizedKernelSolution_solve_spec !![(1 : ℚ)] ![1] ![1] !![1]
    { lambdaType := "absolute", lambdaValue := 7, lambdaScaling := 1,
      maxConditionNumber := 1 } (fun x => x) none).1 rfl

/-! ## Claim theorems: candidate condition-number gate -/

/-- Claim C9: in every one of the four build paths of
`KernelCandidate::_buildKernelSolution` (regularized or not, original or pca
slot), when `checkConditionNumber` holds and the freshly built solution's
condition number exceeds `maxConditionNumber`, the candidate status is set
to `BAD` and the method returns without calling `solve` and without
raising: the gate is non-throwing. -/
theorem kernelCandidate_conditionGate_spec (hasH isInit : Bool)
    (maxCond condNumber : ℚ) (ctype : String)
    (solveResult : Except KError Unit)
    (hct : ctype = "SVD" ∨ ctype = "EIGENVALUE")
    (hgate : maxCond < condNumber) :
    buildKernelSolution hasH isInit true maxCond ctype (Except.ok ())
        condNumber solveResult =
      Except.ok { statusSetBAD := true, solveCalled := false,
                  slotIsPca := isInit } := by
  cases hasH <;> cases isInit <;>
    simp [buildKernelSolution, hct, hgate]

theorem kernelCandidate_conditionGate_spec_witness :
    buildKernelSolution false false true 1 "EIGENVALUE" (Except.ok ()) 2
        (Except.ok ()) =
      Except.ok { statusSetBAD := true, solveCalled := false,
                  slotIsPca := false } :=
  kernelCandidate_conditionGate_spec false false 1 2 "EIGENVALUE"
    (Except.ok ()) (Or.inr rfl) (by norm_num)

/-! ## Claim theorems: stamp builder -/

theorem buildStatic_error_of_neg (nK : ℕ) {N P : ℕ} (fitBg : Bool)
    (conv : Fin nK → Fin (N + 1) → ℚ) (science variance : Fin (N + 1) → ℚ)
    (gr : Fin P → Fin (N + 1)) (h : imageMin variance < 0) :
    buildStatic nK fitBg conv science variance gr =
      Except.error KError.invalidInput := by
  rw [buildStatic.eq_def, if_pos h]

theorem buildStatic_error_of_zero (nK : ℕ) {N P : ℕ} (fitBg : Bool)
    (conv : Fin nK → Fin (N + 1) → ℚ) (science variance : Fin (N + 1) → ℚ)
    (gr : Fin P → Fin (N + 1)) (h : imageMin variance = 0) :
    buildStatic nK fitBg conv science variance gr =
      Except.error KError.invalidInput := by
  rw [buildStatic.eq_def, if_neg (by simp [h]), if_pos h]

theorem buildWithMask_error_of_neg (nK : ℕ) {N : ℕ} (fitBg : Bool)
    (conv : Fin nK → Fin (N + 1) → ℚ) (science variance : Fin (N + 1) → ℚ)
    (finalMask : Fin (N + 1) → ℤ) (h : imageMin variance < 0) :
    buildWithMask nK fitBg conv science variance finalMask =
      Except.error KError.invalidInput := by
  rw [buildWithMask.eq_def, if_pos h]

theorem buildWithMask_error_of_zero (nK : ℕ) {N : ℕ} (fitBg : Bool)
    (conv : Fin nK → Fin (N + 1) → ℚ) (science variance : Fin (N + 1) → ℚ)
    (finalMask : Fin (N + 1) → ℤ) (h : imageMin variance = 0) :
    buildWithMask nK fitBg conv science variance finalMask =
      Except.error KError.invalidInput := by
  rw [buildWithMask.eq_def, if_neg (by simp [h]), if_pos h]

theorem buildStatic_min_pos_of_ok (nK : ℕ) {N P : ℕ} (fitBg : Bool)
    (conv : Fin nK → Fin (N + 1) → ℚ) (science variance : Fin (N + 1) → ℚ)
    (gr : Fin P → Fin (N + 1)) (res : StaticBuildResult P (nK + bgCols fitBg))
    (h : buildStatic nK fitBg conv science variance gr = Except.ok res) :
    0 < imageMin variance := by
  rw [buildStatic.eq_def] at h
  split at h
  · exact absurd h (by simp)
  · split at h
    · exact absurd h (by simp)
    · rename_i h1 h2
      exact (not_lt.mp h1).lt_of_ne (Ne.symm h2)

theorem buildWithMask_min_pos_of_ok (nK : ℕ) {N : ℕ} (fitBg : Bool)
    (conv : Fin nK → Fin (N + 1) → ℚ) (science variance : Fin (N + 1) → ℚ)
    (finalMask : Fin (N + 1) → ℤ)
    (res : StaticBuildResult (maskedGood finalMask).length (nK + bgCols fitBg))
    (h : buildWithMask nK fitBg conv science variance finalMask =
      Except.ok res) :
    0 < imageMin variance := by
  rw [buildWithMask.eq_def] at h
  split at h
  · exact absurd h (by simp)
  · split at h
    · exact absurd h (by simp)
    · rename_i h1 h2
      exact (not_lt.mp h1).lt_of_ne (Ne.symm h2)

/-- Claim C2: after `StaticKernelSolution::build` succeeds, the stored
matrices satisfy `M = CᵀVC` and `b = CᵀVY`, where `V` is the diagonal of
element-wise reciprocals of the variance over the good region and `Y` the
vector of science pixels there (entrywise:
`M j k = Σ_p C p j · variance(p)⁻¹ · C p k` and
`b j = Σ_p C p j · variance(p)⁻¹ · science(p)`); when `fitForBackground`
holds, the last column of `C` — appended before `M` and `b` are formed —
is all ones. -/
theorem staticKernelSolution_build_normal_equations (nK : ℕ) {N P : ℕ}
    (fitBg : Bool) (conv : Fin nK → Fin (N + 1) → ℚ)
    (science variance : Fin (N + 1) → ℚ) (gr : Fin P → Fin (N + 1))
    (res : StaticBuildResult P (nK + bgCols fitBg))
    (hres : buildStatic nK fitBg conv science variance gr = Except.ok res) :
    res.mMat = res.cMat.transpose *
      Matrix.diagonal (fun pp => (variance (gr pp))⁻¹) * res.cMat ∧
    res.bVec = res.cMat.transpose *ᵥ
      (Matrix.diagonal (fun pp => (variance (gr pp))⁻¹) *ᵥ
        fun pp => science (gr pp)) ∧
    res.ivVec = (fun pp => (variance (gr pp))⁻¹) ∧
    res.iVec = (fun pp => science (gr pp)) ∧
    (∀ j k, res.mMat j k =
      ∑ pp, res.cMat pp j * (variance (gr pp))⁻¹ * res.cMat pp k) ∧
    (∀ j, res.bVec j =
      ∑ pp, res.cMat pp j * (variance (gr pp))⁻¹ * science (gr pp)) ∧
    (fitBg = true → ∀ (pp : Fin P) (j : Fin (nK + bgCols fitBg)),
      (j : ℕ) = nK → res.cMat pp j = 1) := by
  rw [buildStatic.eq_def] at hres
  split at hres
  · exact absurd hres (by simp)
  · split at hres
    · exact absurd hres (by simp)
    · injection hres with hres
      subst hres
      dsimp only
      refine ⟨?_, rfl, rfl, rfl, ?_, ?_, ?_⟩
      · exact (Matrix.mul_assoc _ _ _).symm
      · intro j k
        rw [Matrix.mul_apply]
        simp only [Matrix.diagonal_mul, Matrix.transpose_apply]
        exact Finset.sum_congr rfl (fun pp _ => by ring)
      · intro j
        simp only [Matrix.mulVec, Matrix.dotProduct, Matrix.transpose_apply,
          Matrix.diagonal_apply, ite_mul, zero_mul, Finset.sum_ite_eq,
          Finset.mem_univ, if_true]
        exact Finset.sum_congr rfl (fun pp _ => by ring)
      · intro hbg pp j hj
        simp only [staticC]
        rw [dif_neg (by omega)]

theorem c2res_is_build_result :
    buildStatic 1 true c2conv (fun _ => 3) (fun _ => 4) c2gr =
      Except.ok c2res := by
  rw [buildStatic.eq_def,
    if_neg (by rw [imageMin, Finset.inf'_const]; norm_num),
    if_neg (by rw [imageMin, Finset.inf'_const]; norm_num)]
  rfl

theorem staticKernelSolution_build_normal_equations_witness :
    c2res.ivVec = (fun pp => ((fun _ : Fin 1 => (4 : ℚ)) (c2gr pp))⁻¹) :=
  (staticKernelSolution_build_normal_equations 1 true c2conv (fun _ => 3)
    (fun _ => 4) c2gr c2res c2res_is_build_result).2.2.1

/-- Claim C7: in both `build` and `buildWithMask`, a strictly negative
minimum of the supplied variance image fails with `InvalidInput`, a zero
minimum also fails with `InvalidInput`, and a successful build implies
every variance value used to form `C`, `M`, `b` is strictly positive: the
build never proceeds with non-positive variance. -/
theorem build_variance_gate_spec (nK : ℕ) {N P : ℕ} (fitBg : Bool)
    (conv : Fin nK → Fin (N + 1) → ℚ) (science variance : Fin (N + 1) → ℚ)
    (gr : Fin P → Fin (N + 1)) (finalMask : Fin (N + 1) → ℤ) :
    (imageMin variance < 0 →
      buildStatic nK fitBg conv science variance gr =
          Except.error KError.invalidInput ∧
      buildWithMask nK fitBg conv science variance finalMask =
          Except.error KError.invalidInput) ∧
    (imageMin variance = 0 →
      buildStatic nK fitBg conv science variance gr =
          Except.error KError.invalidInput ∧
      buildWithMask nK fitBg conv science variance finalMask =
          Except.error KError.invalidInput) ∧
    (∀ res, buildStatic nK fitBg conv science variance gr = Except.ok res →
      ∀ pp, 0 < variance (gr pp)) ∧
    (∀ res,
      buildWithMask nK fitBg conv science variance finalMask =
        Except.ok res →
      ∀ pp, 0 < variance (maskedGr finalMask pp)) := by
  refine ⟨fun h => ⟨?_, ?_⟩, fun h => ⟨?_, ?_⟩, fun res h pp => ?_, fun res h pp => ?_⟩
  · exact buildStatic_error_of_neg nK fitBg conv science variance gr h
  · exact buildWithMask_error_of_neg nK fitBg conv science variance finalMask h
  · exact buildStatic_error_of_zero nK fitBg conv science variance gr h
  · exact buildWithMask_error_of_zero nK fitBg conv science variance finalMask h
  · exact lt_of_lt_of_le
      (buildStatic_min_pos_of_ok nK fitBg conv science variance gr res h)
      (imageMin_le variance (gr pp))
  · exact lt_of_lt_of_le
      (buildWithMask_min_pos_of_ok nK fitBg conv science variance finalMask
        res h)
      (imageMin_le variance (maskedGr finalMask pp))

theorem build_variance_gate_spec_witness :
    buildStatic 1 false (fun _ _ => (1 : ℚ)) (fun _ => 1)
        (fun _ : Fin 1 => (-1 : ℚ)) (fun p : Fin 1 => p) =
      Except.error KError.invalidInput ∧
    buildWithMask 1 false (fun _ _ => (1 : ℚ)) (fun _ => 1)
        (fun _ : Fin 1 => (-1 : ℚ)) (fun _ => 0) =
      Except.error KError.invalidInput :=
  (build_variance_gate_spec 1 false (fun _ _ => (1 : ℚ)) (fun _ => 1)
    (fun _ : Fin 1 => (-1 : ℚ)) (fun p : Fin 1 => p) (fun _ => 0)).1
    (by rw [imageMin, Finset.inf'_const]; norm_num)

/-- Claim C10: when `build` or `buildWithMask` fails because the minimum
variance is negative or zero, the failure occurs before any mutation of the
solution object: `C`, `V`, `Y`, `M`, `b`, `a`, `solvedBy`, the kernel, the
background and the kernel sum are all exactly as before the call. -/
theorem build_atomic_on_variance_error (st : StaticFields) (nK : ℕ)
    {N P : ℕ} (conv : Fin nK → Fin (N + 1) → ℚ)
    (science variance : Fin (N + 1) → ℚ) (gr : Fin P → Fin (N + 1))
    (finalMask : Fin (N + 1) → ℤ)
    (hbad : imageMin variance < 0 ∨ imageMin variance = 0) :
    buildMutate st nK conv science variance gr =
      (st, some KError.invalidInput) ∧
    buildWithMaskMutate st nK conv science variance finalMask =
      (st, some KError.invalidInput) ∧
    (buildMutate st nK conv science variance gr).1.cMat = st.cMat ∧
    (buildMutate st nK conv science variance gr).1.ivVec = st.ivVec ∧
    (buildMutate st nK conv science variance gr).1.iVec = st.iVec ∧
    (buildMutate st nK conv science variance gr).1.mMat = st.mMat ∧
    (buildMutate st nK conv science variance gr).1.bVec = st.bVec ∧
    (buildMutate st nK conv science variance gr).1.aVec = st.aVec ∧
    (buildMutate st nK conv science variance gr).1.solvedBy = st.solvedBy ∧
    (buildMutate st nK conv science variance gr).1.kernel = st.kernel ∧
    (buildMutate st nK conv science variance gr).1.background =
      st.background ∧
    (buildMutate st nK conv science variance gr).1.kSum = st.kSum ∧
    (buildWithMaskMutate st nK conv science variance finalMask).1 = st := by
  have he : buildStatic nK st.fitForBackground conv science variance gr =
      Except.error KError.invalidInput := by
    rcases hbad with h | h
    · exact buildStatic_error_of_neg nK st.fitForBackground conv science
        variance gr h
    · exact buildStatic_error_of_zero nK st.fitForBackground conv science
        variance gr h
  have hm : buildWithMask nK st.fitForBackground conv science variance
      finalMask = Except.error KError.invalidInput := by
    rcases hbad with h | h
    · exact buildWithMask_error_of_neg nK st.fitForBackground conv science
        variance finalMask h
    · exact buildWithMask_error_of_zero nK st.fitForBackground conv science
        variance finalMask h
  have h1 : buildMutate st nK conv science variance gr =
      (st, some KError.invalidInput) := by
    rw [buildMutate.eq_def, he]
  have h2 : buildWithMaskMutate st nK conv science variance finalMask =
      (st, some KError.invalidInput) := by
    rw [buildWithMaskMutate.eq_def, hm]
  refine ⟨h1, h2, ?_, ?_, ?_, ?_, ?_, ?_, ?_, ?_, ?_, ?_, ?_⟩ <;>
    first
      | rw [h1]
      | rw [h2]

theorem build_atomic_on_variance_error_witness :
    buildMutate (initState false 1) 1 (fun _ _ => (1 : ℚ)) (fun _ => 1)
        (fun _ : Fin 1 => (-1 : ℚ)) (fun p : Fin 1 => p) =
      (initState false 1, some KError.invalidInput) :=
  (build_atomic_on_variance_error (initState false 1) 1 (fun _ _ => (1 : ℚ))
    (fun _ => 1) (fun _ : Fin 1 => (-1 : ℚ)) (fun p : Fin 1 => p)
    (fun _ => 0)
    (Or.inl (by rw [imageMin, Finset.inf'_const]; norm_num))).1

/-! ## Claim theorems: solution accessors and state lifecycle -/

theorem solveLin_error_none {n : ℕ} (M : Matrix (Fin n) (Fin n) ℚ)
    (b : Fin n → ℚ) (eig : Option (Matrix (Fin n) (Fin n) ℚ × (Fin n → ℚ)))
    (e : KSolvedBy) (h : solveLin M b eig = Except.error e) :
    e = KSolvedBy.NONE := by
  rw [solveLin.eq_def] at h
  split at h
  · exact absurd h (by simp)
  · split at h
    · exact absurd h (by simp)
    · injection h with h1
      exact h1.symm

theorem buildMutate_preserves (st : StaticFields) (nK : ℕ) {N P : ℕ}
    (conv : Fin nK → Fin (N + 1) → ℚ) (science variance : Fin (N + 1) → ℚ)
    (gr : Fin P → Fin (N + 1)) :
    (buildMutate st nK conv science variance gr).1.aVec = st.aVec ∧
    (buildMutate st nK conv science variance gr).1.solvedBy = st.solvedBy := by
  rw [buildMutate.eq_def]
  rcases hb : buildStatic nK st.fitForBackground conv science variance gr with
    e | res <;> exact ⟨rfl, rfl⟩

theorem buildWithMaskMutate_preserves (st : StaticFields) (nK : ℕ) {N : ℕ}
    (conv : Fin nK → Fin (N + 1) → ℚ) (science variance : Fin (N + 1) → ℚ)
    (finalMask : Fin (N + 1) → ℤ) :
    (buildWithMaskMutate st nK conv science variance finalMask).1.aVec =
      st.aVec ∧
    (buildWithMaskMutate st nK conv science variance finalMask).1.solvedBy =
      st.solvedBy := by
  rw [buildWithMaskMutate.eq_def]
  rcases hb : buildWithMask nK st.fitForBackground conv science variance
      finalMask with e | res <;> exact ⟨rfl, rfl⟩

theorem solveMutate_cases (st : StaticFields)
    (eig : Option (Matrix (Fin st.dim) (Fin st.dim) ℚ × (Fin st.dim → ℚ))) :
    (∃ sb a, solveLin (toFinM st.dim st.mMat) (toFinV st.dim st.bVec) eig =
        Except.ok (sb, a) ∧
      solveMutate st eig =
        { st with solvedBy := sb, aVec := some (toFunV a) }) ∨
    (solveLin (toFinM st.dim st.mMat) (toFinV st.dim st.bVec) eig =
        Except.error KSolvedBy.NONE ∧
      solveMutate st eig = { st with solvedBy := KSolvedBy.NONE }) := by
  rw [solveMutate.eq_def]
  rcases hs : solveLin (toFinM st.dim st.mMat) (toFinV st.dim st.bVec) eig with
    e | res
  · right
    have he : e = KSolvedBy.NONE := solveLin_error_none _ _ _ _ hs
    subst he
    exact ⟨rfl, rfl⟩
  · left
    obtain ⟨sb, a⟩ := res
    exact ⟨sb, a, rfl, rfl⟩

theorem solveMutate_of_det_ne {st : StaticFields}
    (h : (toFinM st.dim st.mMat).det ≠ 0) :
    solveMutate st none =
      { st with solvedBy := KSolvedBy.LU,
                aVec := some (toFunV (matInv (toFinM st.dim st.mMat) *ᵥ
                  toFinV st.dim st.bVec)) } := by
  rw [solveMutate.eq_def, solveLin.eq_def, if_pos h]

theorem solveMutate_of_det_zero {st : StaticFields}
    (h : (toFinM st.dim st.mMat).det = 0) :
    solveMutate st none = { st with solvedBy := KSolvedBy.NONE } := by
  rw [solveMutate.eq_def, solveLin.eq_def, if_neg (by simp [h])]

/-- Claim C8 (amended): whenever `solvedBy = NONE`, each of `getKernel`,
`getBackground`, `getKsum`, `makeKernelImage` and `getSolutionPair` fails
with a `NotSolved` error; and on every reachable
`StaticKernelSolution` state, `solvedBy ≠ NONE` guarantees the coefficient
vector `a` is defined.  (The converse of the second part fails: a solve
whose eigendecomposition throws resets `solvedBy` to `NONE` without
clearing `a`, so after an earlier successful solve `a` can remain defined
while `solvedBy = NONE` — see the counterexample.) -/
theorem staticSolution_accessors_notSolved_spec :
    (∀ st : StaticFields, st.solvedBy = KSolvedBy.NONE →
      getKernel st = Except.error KError.notSolved ∧
      getBackground st = Except.error KError.notSolved ∧
      getKsum st = Except.error KError.notSolved ∧
      makeKernelImage st = Except.error KError.notSolved ∧
      getSolutionPair st = Except.error KError.notSolved) ∧
    (∀ st : StaticFields, ReachableState st →
      st.solvedBy ≠ KSolvedBy.NONE → st.aVec.isSome = true) := by
  constructor
  · intro st h
    refine ⟨?_, ?_, ?_, ?_, ?_⟩
    · rw [getKernel, if_pos h]
    · rw [getBackground, if_pos h]
    · rw [getKsum, if_pos h]
    · rw [makeKernelImage, if_pos h]
    · rw [getSolutionPair, if_pos h]
  · intro st hr
    induction hr with
    | construct fitBg nBases =>
        intro h
        exact absurd rfl h
    | buildT h nK conv science variance gr ih =>
        rename_i st2 _ _
        intro hne
        obtain ⟨ha, hs⟩ :=
          buildMutate_preserves st2 nK conv science variance gr
        rw [ha]
        rw [hs] at hne
        exact ih hne
    | buildMaskT h nK conv science variance finalMask ih =>
        rename_i st2 _
        intro hne
        obtain ⟨ha, hs⟩ :=
          buildWithMaskMutate_preserves st2 nK conv science variance finalMask
        rw [ha]
        rw [hs] at hne
        exact ih hne
    | solveT h eig ih =>
        rename_i st2
        intro hne
        rcases solveMutate_cases st2 eig with ⟨sb, a, hs, heq⟩ | ⟨hs, heq⟩
        · rw [heq]
          rfl
        · rw [heq] at hne
          exact (hne rfl).elim

theorem staticSolution_accessors_notSolved_spec_witness :
    getKernel (initState false 1) = Except.error KError.notSolved ∧
    getBackground (initState false 1) = Except.error KError.notSolved ∧
    getKsum (initState false 1) = Except.error KError.notSolved ∧
    makeKernelImage (initState false 1) = Except.error KError.notSolved ∧
    getSolutionPair (initState false 1) = Except.error KError.notSolved :=
  staticSolution_accessors_notSolved_spec.1 (initState false 1) rfl

theorem ceT1 :
    buildMutate (initState false 1) 1 ceConvOne (fun _ => 1) (fun _ => 1)
      (fun p : Fin 1 => p) = (ceStA, none) := by
  have hb1 : buildStatic 1 (initState false 1).fitForBackground ceConvOne
      (fun _ => 1) (fun _ => 1) (fun p : Fin 1 => p) = Except.ok ceRes1 := by
    rw [buildStatic.eq_def,
      if_neg (by rw [imageMin, Finset.inf'_const]; norm_num),
      if_neg (by rw [imageMin, Finset.inf'_const]; norm_num)]
    rfl
  rw [buildMutate.eq_def, hb1]
  rfl

theorem ceT2 : solveMutate ceStA none = ceStB := by
  have hdet : (toFinM ceStA.dim ceStA.mMat).det ≠ 0 := by
    have h00 : (toFinM ceStA.dim ceStA.mMat).det = toFunM ceRes1.mMat 0 0 :=
      Matrix.det_fin_one (toFinM 1 (toFunM ceRes1.mMat))
    rw [h00]
    simp only [toFunM]
    rw [dif_pos (by constructor <;> norm_num [bgCols])]
    simp [ceRes1, Matrix.mul_apply, Fin.sum_univ_one, staticC,
      Matrix.diagonal_mul, ceConvOne]
  rw [solveMutate.eq_def, solveLin.eq_def, if_pos hdet]
  rfl

theorem ceT3 :
    buildMutate ceStB 1 ceConvZero (fun _ => 0) (fun _ => 1)
      (fun p : Fin 1 => p) = (ceStC, none) := by
  have hb3 : buildStatic 1 ceStB.fitForBackground ceConvZero
      (fun _ => 0) (fun _ => 1) (fun p : Fin 1 => p) = Except.ok ceRes3 := by
    rw [buildStatic.eq_def,
      if_neg (by rw [imageMin, Finset.inf'_const]; norm_num),
      if_neg (by rw [imageMin, Finset.inf'_const]; norm_num)]
    rfl
  rw [buildMutate.eq_def, hb3]
  rfl

theorem ceT4 : solveMutate ceStC none = ceStD := by
  have hdet : (toFinM ceStC.dim ceStC.mMat).det = 0 := by
    have h00 : (toFinM ceStC.dim ceStC.mMat).det = toFunM ceRes3.mMat 0 0 :=
      Matrix.det_fin_one (toFinM 1 (toFunM ceRes3.mMat))
    rw [h00]
    simp only [toFunM]
    rw [dif_pos (by constructor <;> norm_num [bgCols])]
    simp [ceRes3, Matrix.mul_apply, Fin.sum_univ_one, staticC,
      Matrix.diagonal_mul, ceConvZero]
  rw [solveMutate.eq_def, solveLin.eq_def, if_neg (by simp [hdet])]
  rfl

/-- Claim C8 counterexample: a reachable `StaticKernelSolution` state whose
coefficient vector `a` is defined yet whose `solvedBy` is `NONE`, refuting
"the coefficient vector `a` is defined only when `solvedBy ≠ NONE`" (and
with it the reading "`solvedBy = NONE` means no successful solve has
happened").  The run: construct; build a well-posed 1×1 system; solve
(LU success assigns `_aVec`); build a singular system (`conv ≡ 0`); solve
again with the eigendecomposition throwing — the source sets
`_solvedBy = NONE` and throws before the `_aVec = aVec` assignment, so `a`
keeps its earlier value while `solvedBy` reads `NONE`. -/
theorem staticSolution_aVec_counterexample :
    ReachableState ceStD ∧ ceStD.aVec.isSome = true ∧
    ceStD.solvedBy = KSolvedBy.NONE := by
  refine ⟨?_, rfl, rfl⟩
  have r1 : ReachableState ceStA := by
    have h := ReachableState.buildT (ReachableState.construct false 1) 1
      ceConvOne (fun _ => 1) (fun _ => 1) (fun p : Fin 1 => p)
    rw [ceT1] at h
    exact h
  have r2 : ReachableState ceStB := by
    have h := ReachableState.solveT r1 none
    rw [ceT2] at h
    exact h
  have r3 : ReachableState ceStC := by
    have h := ReachableState.buildT r2 1 ceConvZero (fun _ => 0) (fun _ => 1)
      (fun p : Fin 1 => p)
    rw [ceT3] at h
    exact h
  have h := ReachableState.solveT r3 none
  rw [ceT4] at h
  exact h

/-! ## Claim theorems: NaN handling in _setKernel -/

theorem exceptMapList_nil {α β ε : Type} (f : α → Except ε β) :
    exceptMapList f [] = Except.ok [] := rfl

theorem exceptMapList_cons {α β ε : Type} (f : α → Except ε β) (a : α)
    (t : List α) :
    exceptMapList f (a :: t) =
      match f a with
      | Except.error e => Except.error e
      | Except.ok b =>
          match exceptMapList f t with
          | Except.error e => Except.error e
          | Except.ok bs => Except.ok (b :: bs) := rfl

theorem exceptMapList_ok_forall {α β ε : Type} (f : α → Except ε β)
    (l : List α) (bs : List β) (h : exceptMapList f l = Except.ok bs) :
    ∀ x ∈ l, ∃ b, f x = Except.ok b := by
  induction l generalizing bs with
  | nil =>
      intro x hx
      cases hx
  | cons a t ih =>
      rw [exceptMapList_cons] at h
      split at h
      · exact absurd h (by simp)
      · rename_i b heqa
        split at h
        · exact absurd h (by simp)
        · rename_i bs2 heqt
          intro x hx
          rcases List.mem_cons.mp hx with rfl | hx2
          · exact ⟨b, heqa⟩
          · exact ih bs2 heqt x hx2

theorem exceptMapList_error_mem {α β ε : Type} (f : α → Except ε β)
    (l : List α) (e : ε) (h : exceptMapList f l = Except.error e) :
    ∃ x ∈ l, f x = Except.error e := by
  induction l with
  | nil =>
      rw [exceptMapList_nil] at h
      exact absurd h (by simp)
  | cons a t ih =>
      rw [exceptMapList_cons] at h
      split at h
      · rename_i ea heqa
        injection h with h1
        subst h1
        exact ⟨a, List.mem_cons_self a t, heqa⟩
      · rename_i b heqa
        split at h
        · rename_i et heqt
          injection h with h1
          subst h1
          obtain ⟨x, hx, hfx⟩ := ih heqt
          exact ⟨x, List.mem_cons_of_mem a hx, hfx⟩
        · exact absurd h (by simp)

theorem spatialBgCoeffs_error_shape (p : SpatialParams) (aVec : ℕ → Option ℚ)
    (e : SpatialSetErr) (h : spatialBgCoeffs p aVec = Except.error e) :
    ∃ idx, e = SpatialSetErr.backgroundNan idx := by
  rw [spatialBgCoeffs.eq_def] at h
  split at h
  · obtain ⟨x, hx, hfx⟩ := exceptMapList_error_mem _ _ _ h
    rcases hax : aVec (p.nt - p.nbt + x) with _ | v
    · rw [hax] at hfx
      injection hfx with h1
      exact ⟨p.nt - p.nbt + x, h1.symm⟩
    · rw [hax] at hfx
      exact absurd hfx (by simp)
  · exact absurd h (by simp)

theorem spatialSetKernel_error_shape (p : SpatialParams) (aVec : ℕ → Option ℚ)
    (cNumber : ℚ) (e : SpatialSetErr)
    (h : spatialSetKernel p aVec cNumber = Except.error e) :
    (∃ idx, e = SpatialSetErr.kernelNan idx cNumber) ∨
    ∃ idx, e = SpatialSetErr.backgroundNan idx := by
  rw [spatialSetKernel.eq_def] at h
  split at h
  · split at h
    · rename_i e2 heqk
      injection h with h1
      subst h1
      obtain ⟨x, hx, hfx⟩ := exceptMapList_error_mem _ _ _ heqk
      rcases hax : aVec x with _ | v
      · rw [hax] at hfx
        injection hfx with h1
        exact Or.inl ⟨x, h1.symm⟩
      · rw [hax] at hfx
        exact absurd hfx (by simp)
    · split at h
      · rename_i e2 heqb
        injection h with h1
        subst h1
        exact Or.inr (spatialBgCoeffs_error_shape p aVec _ heqb)
      · exact absurd h (by simp)
  · split at h
    · rename_i e2 heqk
      injection h with h1
      subst h1
      obtain ⟨i, hi, hgi⟩ := exceptMapList_error_mem _ _ _ heqk
      obtain ⟨j, hj, hfj⟩ := exceptMapList_error_mem _ _ _ hgi
      rcases hax : aVec (kIdxStart p i + j) with _ | v
      · rw [hax] at hfj
        injection hfj with h1
        exact Or.inl ⟨kIdxStart p i + j, h1.symm⟩
      · rw [hax] at hfj
        exact absurd hfj (by simp)
    · split at h
      · rename_i e2 heqb
        injection h with h1
        subst h1
        exact Or.inr (spatialBgCoeffs_error_shape p aVec _ heqb)
      · exact absurd h (by simp)

/-- Claim C6 (amended): any NaN among the coefficients read by `_setKernel`
— static kernel coefficients, the static background coefficient, spatial
kernel coefficients or spatial background coefficients — makes the
conversion of coefficients into a kernel fail with a (Numerical) error
rather than produce a kernel.  In the spatial solution, NaN kernel
coefficients raise errors whose message contains the reported condition
number, but the spatial background NaN message does *not* contain it. -/
theorem setKernel_nan_spec (solvedBy : KSolvedBy) (fitBg : Bool) (nK : ℕ)
    (aList : List (Option ℚ)) (bg0 : ℚ) (p : SpatialParams)
    (aVec : ℕ → Option ℚ) (cNumber : ℚ) :
    ((∃ idx, idx < nK ∧ aList.getD idx none = none) →
      ∃ e, staticSetKernel solvedBy fitBg nK aList bg0 = Except.error e) ∧
    ((fitBg = true ∧ aList.getD (aList.length - 1) none = none) →
      ∃ e, staticSetKernel solvedBy fitBg nK aList bg0 = Except.error e) ∧
    ((∃ idx ∈ spatialKernelIdxList p, aVec idx = none) →
      ∃ e, spatialSetKernel p aVec cNumber = Except.error e) ∧
    ((∃ idx ∈ spatialBgIdxList p, aVec idx = none) →
      ∃ e, spatialSetKernel p aVec cNumber = Except.error e) ∧
    (∀ e, spatialSetKernel p aVec cNumber = Except.error e →
      ((∃ idx, e = SpatialSetErr.kernelNan idx cNumber) ∧
        e.messageHasCondNumber = true) ∨
      ((∃ idx, e = SpatialSetErr.backgroundNan idx) ∧
        e.messageHasCondNumber = false)) := by
  refine ⟨?_, ?_, ?_, ?_, ?_⟩
  · rintro ⟨idx, hidx, hv⟩
    rw [staticSetKernel.eq_def]
    split
    · exact ⟨StaticSetErr.notSolved, rfl⟩
    · split
      · exact ⟨StaticSetErr.mismatch, rfl⟩
      · split
        · rename_i e2 heq
          exact ⟨e2, rfl⟩
        · rename_i kValues heq
          exfalso
          obtain ⟨b, hb⟩ := exceptMapList_ok_forall _ _ _ heq idx
            (List.mem_range.mpr hidx)
          rw [hv] at hb
          exact absurd hb (by simp)
  · rintro ⟨hbg, hv⟩
    rw [staticSetKernel.eq_def]
    split
    · exact ⟨StaticSetErr.notSolved, rfl⟩
    · split
      · exact ⟨StaticSetErr.mismatch, rfl⟩
      · split
        · rename_i e2 heq
          exact ⟨e2, rfl⟩
        · rename_i kValues heq
          rw [hv]
          exact ⟨StaticSetErr.backgroundNan (aList.length - 1), rfl⟩
  · rintro ⟨idx, hmem, hv⟩
    rw [spatialKernelIdxList.eq_def] at hmem
    rw [spatialSetKernel.eq_def]
    split
    · rename_i hnkt
      rw [if_pos hnkt] at hmem
      split
      · rename_i e2 heq
        exact ⟨e2, rfl⟩
      · rename_i kValues heq
        exfalso
        obtain ⟨b, hb⟩ := exceptMapList_ok_forall _ _ _ heq idx hmem
        rw [hv] at hb
        exact absurd hb (by simp)
    · rename_i hnkt
      rw [if_neg hnkt] at hmem
      split
      · rename_i e2 heq
        exact ⟨e2, rfl⟩
      · rename_i kValues heq
        exfalso
        obtain ⟨i, hi, hij⟩ := List.mem_flatMap.mp hmem
        obtain ⟨j, hj, hidx⟩ := List.mem_map.mp hij
        obtain ⟨bi, hbi⟩ := exceptMapList_ok_forall _ _ _ heq i hi
        obtain ⟨b, hb⟩ := exceptMapList_ok_forall _ _ _ hbi j hj
        rw [hidx] at hb
        rw [hv] at hb
        exact absurd hb (by simp)
  · rintro ⟨idx, hmem, hv⟩
    rw [spatialBgIdxList.eq_def] at hmem
    have hbgl : p.fitBg = true := by
      rcases hfb : p.fitBg with _ | _
      · rw [hfb] at hmem
        simp at hmem
      · rfl
    rw [hbgl, if_pos rfl] at hmem
    obtain ⟨i, hi, hidx⟩ := List.mem_map.mp hmem
    have hbgerr : ∃ e, spatialBgCoeffs p aVec = Except.error e := by
      rw [spatialBgCoeffs.eq_def, hbgl, if_pos rfl]
      rcases hbc : exceptMapList (fun i =>
          match aVec (p.nt - p.nbt + i) with
          | none => Except.error (SpatialSetErr.backgroundNan (p.nt - p.nbt + i))
          | some v => Except.ok v) (List.range p.nbt) with e2 | bs
      · exact ⟨e2, rfl⟩
      · exfalso
        obtain ⟨b, hb⟩ := exceptMapList_ok_forall _ _ _ hbc i hi
        rw [hidx] at hb
        rw [hv] at hb
        exact absurd hb (by simp)
    obtain ⟨eb, heb⟩ := hbgerr
    rw [spatialSetKernel.eq_def]
    split
    · split
      · rename_i e2 heq
        exact ⟨e2, rfl⟩
      · rw [heb]
        exact ⟨eb, rfl⟩
    · split
      · rename_i e2 heq
        exact ⟨e2, rfl⟩
      · rw [heb]
        exact ⟨eb, rfl⟩
  · intro e he
    rcases spatialSetKernel_error_shape p aVec cNumber e he with ⟨idx, hs⟩ | ⟨idx, hs⟩
    · exact Or.inl ⟨⟨idx, hs⟩, by rw [hs]; rfl⟩
    · exact Or.inr ⟨⟨idx, hs⟩, by rw [hs]; rfl⟩

theorem setKernel_nan_spec_witness :
    ∃ e, staticSetKernel KSolvedBy.LU false 1 [none] 0 = Except.error e :=
  (setKernel_nan_spec KSolvedBy.LU false 1 [none] 0 c6p c6a 5).1
    ⟨0, by norm_num, rfl⟩

/-- Claim C6 counterexample: a spatial solution with one basis, a constant
spatial kernel function and a one-parameter background whose only NaN
coefficient is the background entry (index 1).  `_setKernel` fails, as the
claim requires — but with the background message, which does not include
the reported condition number, refuting "the failure message includes the
reported condition number … including the spatial background
coefficients". -/
theorem spatial_backgroundNan_message_counterexample :
    c6a 1 = none ∧
    spatialSetKernel c6p c6a 5 =
      Except.error (SpatialSetErr.backgroundNan 1) ∧
    (SpatialSetErr.backgroundNan 1).messageHasCondNumber = false := by
  refine ⟨rfl, ?_, rfl⟩
  rfl

/-! ## Claim theorems: spatial aggregation — block-accumulation machinery -/

theorem opContrib_hit (i j : ℕ) (op : BlockOp)
    (h1 : op.r ≤ i ∧ i < op.r + op.h) (h2 : op.c ≤ j ∧ j < op.c + op.w) :
    opContrib i j op = op.val (i - op.r) (j - op.c) := by
  rw [opContrib, if_pos ⟨h1, h2⟩]

theorem opContrib_zero_row (i j : ℕ) (op : BlockOp)
    (h : ¬(op.r ≤ i ∧ i < op.r + op.h)) : opContrib i j op = 0 := by
  rw [opContrib, if_neg (fun hcon => h hcon.1)]

theorem opContrib_zero_col (i j : ℕ) (op : BlockOp)
    (h : ¬(op.c ≤ j ∧ j < op.c + op.w)) : opContrib i j op = 0 := by
  rw [opContrib, if_neg (fun hcon => h hcon.2)]

theorem applyOp_apply (M : ℕ → ℕ → ℚ) (op : BlockOp) (i j : ℕ) :
    applyOp M op i j = M i j + opContrib i j op := by
  simp only [applyOp, opContrib]
  split
  · rfl
  · rw [add_zero]

theorem applyOps_apply (ops : List BlockOp) :
    ∀ (M : ℕ → ℕ → ℚ) (i j : ℕ),
      applyOps M ops i j = M i j + (ops.map (opContrib i j)).sum := by
  induction ops with
  | nil =>
      intro M i j
      simp [applyOps]
  | cons op t ih =>
      intro M i j
      show applyOps (applyOp M op) t i j = _
      rw [ih, applyOp_apply, List.map_cons, List.sum_cons]
      ring

theorem segContrib_hit (i : ℕ) (op : SegOp)
    (h : op.s ≤ i ∧ i < op.s + op.len) :
    segContrib i op = op.val (i - op.s) := by
  rw [segContrib, if_pos h]

theorem segContrib_zero (i : ℕ) (op : SegOp)
    (h : ¬(op.s ≤ i ∧ i < op.s + op.len)) : segContrib i op = 0 := by
  rw [segContrib, if_neg h]

theorem applySeg_apply (b : ℕ → ℚ) (op : SegOp) (i : ℕ) :
    applySeg b op i = b i + segContrib i op := by
  simp only [applySeg, segContrib]
  split
  · rfl
  · rw [add_zero]

theorem applySegs_apply (ops : List SegOp) :
    ∀ (b : ℕ → ℚ) (i : ℕ),
      applySegs b ops i = b i + (ops.map (segContrib i)).sum := by
  induction ops with
  | nil =>
      intro b i
      simp [applySegs]
  | cons op t ih =>
      intro b i
      show applySegs (applySeg b op) t i = _
      rw [ih, applySeg_apply, List.map_cons, List.sum_cons]
      ring

theorem sum_map_range'_zero (f : ℕ → ℚ) :
    ∀ (n s : ℕ), (∀ k, s ≤ k → k < s + n → f k = 0) →
      ((List.range' s n).map f).sum = 0 := by
  intro n
  induction n with
  | zero =>
      intro s h
      rfl
  | succ m ih =>
      intro s h
      show (f s + ((List.range' (s + 1) m).map f).sum) = 0
      rw [h s le_rfl (by omega), ih (s + 1) (fun k h1 h2 => h k (by omega) (by omega)),
        add_zero]

theorem sum_map_range'_single (f : ℕ → ℚ) :
    ∀ (n s m : ℕ), s ≤ m → m < s + n →
      (∀ k, s ≤ k → k < s + n → k ≠ m → f k = 0) →
      ((List.range' s n).map f).sum = f m := by
  intro n
  induction n with
  | zero =>
      intro s m h1 h2 h0
      omega
  | succ nn ih =>
      intro s m h1 h2 h0
      show (f s + ((List.range' (s + 1) nn).map f).sum) = f m
      rcases eq_or_ne s m with rfl | hne
      · rw [sum_map_range'_zero f nn (s + 1)
          (fun k hk1 hk2 => h0 k (by omega) (by omega) (by omega)), add_zero]
      · rw [h0 s le_rfl (by omega) hne, zero_add]
        exact ih (s + 1) m (by omega) (by omega)
          (fun k hk1 hk2 hk3 => h0 k (by omega) (by omega) hk3)

theorem sum_map_flatMap (l : List ℕ) (f : ℕ → List BlockOp)
    (g : BlockOp → ℚ) :
    ((l.flatMap f).map g).sum = (l.map (fun m => ((f m).map g).sum)).sum := by
  induction l with
  | nil => rfl
  | cons a t ih =>
      rw [List.flatMap_cons, List.map_append, List.sum_append, ih,
        List.map_cons, List.sum_cons]

/-! ## Spatial block-index arithmetic -/

theorem dm_le_mul (p : SpatialParams) (hk : 1 ≤ p.nkt) {m : ℕ}
    (hm : p.m0 ≤ m) : p.dm ≤ m * p.nkt := by
  rcases hc : p.cft with _ | _
  · simp [SpatialParams.dm, hc]
  · rw [SpatialParams.m0, hc] at hm
    simp only [if_true] at hm
    have h2 : p.nkt ≤ m * p.nkt := Nat.le_mul_of_pos_left p.nkt (by omega)
    simp only [SpatialParams.dm, hc]
    simp only [if_true]
    omega

theorem blockStart_succ (p : SpatialParams) (hk : 1 ≤ p.nkt) {m : ℕ}
    (hm : p.m0 ≤ m) : blockStart p (m + 1) = blockStart p m + p.nkt := by
  have h1 := dm_le_mul p hk hm
  rw [blockStart, blockStart, Nat.succ_mul]
  omega

theorem blockStart_le (p : SpatialParams) {m m2 : ℕ} (h : m ≤ m2) :
    blockStart p m ≤ blockStart p m2 := by
  rw [blockStart, blockStart]
  exact Nat.sub_le_sub_right (Nat.mul_le_mul_right p.nkt h) p.dm

theorem blockStart_add_le (p : SpatialParams) (hk : 1 ≤ p.nkt) {m m2 : ℕ}
    (hm : p.m0 ≤ m) (h : m < m2) :
    blockStart p m + p.nkt ≤ blockStart p m2 := by
  rw [← blockStart_succ p hk hm]
  exact blockStart_le p h

theorem blockStart_last_add (p : SpatialParams) (hk : 1 ≤ p.nkt)
    (hb : 1 ≤ p.nbases) (hc : p.m0 ≤ p.nbases - 1) :
    blockStart p (p.nbases - 1) + p.nkt = p.mb := by
  rcases hcf : p.cft with _ | _
  · have h1 : (p.nbases - 1) * p.nkt = p.nbases * p.nkt - p.nkt :=
      Nat.sub_one_mul p.nbases p.nkt
    have h2 : p.nkt ≤ p.nbases * p.nkt :=
      Nat.le_mul_of_pos_left p.nkt (by omega)
    simp [blockStart, SpatialParams.dm, SpatialParams.mb,
      SpatialParams.nt, hcf]
    omega
  · have hd : p.nkt - 1 ≤ (p.nbases - 1) * p.nkt := by
      have hd0 := dm_le_mul p hk hc
      simpa [SpatialParams.dm, hcf] using hd0
    simp [blockStart, SpatialParams.dm, SpatialParams.mb,
      SpatialParams.nt, hcf]
    omega

theorem blockStart_nkt_le_mb (p : SpatialParams) (hk : 1 ≤ p.nkt)
    (hb : 1 ≤ p.nbases) {m : ℕ} (hm : p.m0 ≤ m) (hmlt : m < p.nbases) :
    blockStart p m + p.nkt ≤ p.mb := by
  have h1 : blockStart p m ≤ blockStart p (p.nbases - 1) :=
    blockStart_le p (by omega)
  have h2 : blockStart p (p.nbases - 1) + p.nkt = p.mb :=
    blockStart_last_add p hk hb (by omega)
  omega

theorem one_le_blockStart (p : SpatialParams) (hk : 1 ≤ p.nkt)
    (hc : p.cft = true) {m : ℕ} (hm : 1 ≤ m) : 1 ≤ blockStart p m := by
  have h2 : p.nkt ≤ m * p.nkt := Nat.le_mul_of_pos_left p.nkt (by omega)
  simp [blockStart, SpatialParams.dm, hc]
  omega

theorem one_le_mb (p : SpatialParams) (hc : p.cft = true) : 1 ≤ p.mb := by
  simp [SpatialParams.mb, SpatialParams.nt, hc]

theorem block_row_iff (p : SpatialParams) (hk : 1 ≤ p.nkt) {m m1 u : ℕ}
    (hm : p.m0 ≤ m) (hm1 : p.m0 ≤ m1) (hu : u < p.nkt) :
    (blockStart p m ≤ blockStart p m1 + u ∧
      blockStart p m1 + u < blockStart p m + p.nkt) ↔ m = m1 := by
  constructor
  · rintro ⟨h1, h2⟩
    by_contra hne
    rcases Nat.lt_or_ge m m1 with hlt | hge
    · have h3 := blockStart_add_le p hk hm hlt
      have h4 : blockStart p m1 ≤ blockStart p m1 + u := by omega
      omega
    · have hgt : m1 < m := by omega
      have h3 := blockStart_add_le p hk hm1 hgt
      omega
  · rintro rfl
    omega

/-! ## Contribution of individual addConstraint operations -/

theorem opContrib_lit_hit (r c hh ww : ℕ) (f : ℕ → ℕ → ℚ) (i j : ℕ)
    (hr : r ≤ i ∧ i < r + hh) (hc : c ≤ j ∧ j < c + ww) :
    opContrib i j ⟨r, c, hh, ww, f⟩ = f (i - r) (j - c) := by
  show (if (r ≤ i ∧ i < r + hh) ∧ (c ≤ j ∧ j < c + ww) then f (i - r) (j - c)
    else 0) = f (i - r) (j - c)
  rw [if_pos ⟨hr, hc⟩]

theorem opContrib_lit_zero_row (r c hh ww : ℕ) (f : ℕ → ℕ → ℚ) (i j : ℕ)
    (hr : ¬(r ≤ i ∧ i < r + hh)) :
    opContrib i j ⟨r, c, hh, ww, f⟩ = 0 := by
  show (if (r ≤ i ∧ i < r + hh) ∧ (c ≤ j ∧ j < c + ww) then f (i - r) (j - c)
    else 0) = 0
  rw [if_neg (fun hcon => hr hcon.1)]

theorem opContrib_lit_zero_col (r c hh ww : ℕ) (f : ℕ → ℕ → ℚ) (i j : ℕ)
    (hc : ¬(c ≤ j ∧ j < c + ww)) :
    opContrib i j ⟨r, c, hh, ww, f⟩ = 0 := by
  show (if (r ≤ i ∧ i < r + hh) ∧ (c ≤ j ∧ j < c + ww) then f (i - r) (j - c)
    else 0) = 0
  rw [if_neg (fun hcon => hc hcon.2)]

theorem segContrib_lit_hit (s len : ℕ) (f : ℕ → ℚ) (i : ℕ)
    (h : s ≤ i ∧ i < s + len) :
    segContrib i ⟨s, len, f⟩ = f (i - s) := by
  show (if s ≤ i ∧ i < s + len then f (i - s) else 0) = f (i - s)
  rw [if_pos h]

theorem segContrib_lit_zero (s len : ℕ) (f : ℕ → ℚ) (i : ℕ)
    (h : ¬(s ≤ i ∧ i < s + len)) :
    segContrib i ⟨s, len, f⟩ = 0 := by
  show (if s ≤ i ∧ i < s + len then f (i - s) else 0) = 0
  rw [if_neg h]

theorem sum_map_if_single {α : Type} (c : Bool) (op : α) (g : α → ℚ) :
    ((if c = true then [op] else []).map g).sum = if c = true then g op else 0 := by
  rcases c with _ | _ <;> simp

theorem sum_map_if_list {α : Type} (c : Bool) (l : List α) (g : α → ℚ) :
    ((if c = true then l else []).map g).sum =
      if c = true then (l.map g).sum else 0 := by
  rcases c with _ | _ <;> simp

theorem one_le_mb_any (p : SpatialParams) (hk : 1 ≤ p.nkt)
    (hb : 1 ≤ p.nbases) : 1 ≤ p.mb := by
  rcases hcf : p.cft with _ | _
  · have h2 : p.nkt ≤ p.nbases * p.nkt :=
      Nat.le_mul_of_pos_left p.nkt (by omega)
    simp [SpatialParams.mb, SpatialParams.nt, hcf]
    omega
  · exact one_le_mb p hcf

theorem m1Ops_sum_zero_row (p : SpatialParams) (q : ℕ → ℕ → ℚ)
    (pK pB : ℕ → ℚ) (m1 : ℕ) {i : ℕ}
    (hrow : ¬(blockStart p m1 ≤ i ∧ i < blockStart p m1 + p.nkt)) (j : ℕ) :
    ((m1Ops p q pK pB m1).map (opContrib i j)).sum = 0 := by
  simp only [m1Ops, List.map_cons, List.sum_cons, List.map_append,
    List.sum_append, List.map_map, sum_map_if_single, Function.comp_def]
  have h1 : opContrib i j ⟨blockStart p m1, blockStart p m1, p.nkt, p.nkt,
      fun u v => if u ≤ v then (pK u * pK v) * q m1 m1 else 0⟩ = 0 :=
    opContrib_lit_zero_row _ _ _ _ _ _ _ hrow
  have h2 : ((List.range' (m1 + 1) (p.nbases - (m1 + 1))).map
      (fun m2 => opContrib i j ⟨blockStart p m1, blockStart p m2, p.nkt, p.nkt,
        fun u v => q m1 m2 * (pK u * pK v)⟩)).sum = 0 :=
    sum_map_range'_zero _ _ _
      (fun k hk1 hk2 => opContrib_lit_zero_row _ _ _ _ _ _ _ hrow)
  have h3 : opContrib i j ⟨blockStart p m1, p.mb, p.nkt, p.nbt,
      fun u v => q m1 p.nbases * (pK u * pB v)⟩ = 0 :=
    opContrib_lit_zero_row _ _ _ _ _ _ _ hrow
  rw [h1, h2, h3, ite_self, add_zero, add_zero]

theorem m1Ops_sum_offdiag (p : SpatialParams) (hk : 1 ≤ p.nkt)
    (q : ℕ → ℕ → ℚ) (pK pB : ℕ → ℚ) {m1 m2 u v : ℕ}
    (hm1 : p.m0 ≤ m1) (h12 : m1 < m2) (hlt : m2 < p.nbases)
    (hu : u < p.nkt) (hv : v < p.nkt) :
    ((m1Ops p q pK pB m1).map
        (opContrib (blockStart p m1 + u) (blockStart p m2 + v))).sum =
      q m1 m2 * (pK u * pK v) := by
  have hm2' : p.m0 ≤ m2 := by omega
  have hcol : blockStart p m1 + p.nkt ≤ blockStart p m2 :=
    blockStart_add_le p hk hm1 h12
  have hbmb : blockStart p m2 + p.nkt ≤ p.mb :=
    blockStart_nkt_le_mb p hk (by omega) hm2' hlt
  simp only [m1Ops, List.map_cons, List.sum_cons, List.map_append,
    List.sum_append, List.map_map, sum_map_if_single, Function.comp_def]
  have h1 : opContrib (blockStart p m1 + u) (blockStart p m2 + v)
      ⟨blockStart p m1, blockStart p m1, p.nkt, p.nkt,
        fun u v => if u ≤ v then (pK u * pK v) * q m1 m1 else 0⟩ = 0 :=
    opContrib_lit_zero_col _ _ _ _ _ _ _ (by omega)
  have h2 : ((List.range' (m1 + 1) (p.nbases - (m1 + 1))).map
      (fun m => opContrib (blockStart p m1 + u) (blockStart p m2 + v)
        ⟨blockStart p m1, blockStart p m, p.nkt, p.nkt,
          fun u v => q m1 m * (pK u * pK v)⟩)).sum =
      opContrib (blockStart p m1 + u) (blockStart p m2 + v)
        ⟨blockStart p m1, blockStart p m2, p.nkt, p.nkt,
          fun u v => q m1 m2 * (pK u * pK v)⟩ :=
    sum_map_range'_single _ _ _ m2 (by omega) (by omega)
      (fun k hk1 hk2 hkne => opContrib_lit_zero_col _ _ _ _ _ _ _
        (fun hcon => hkne ((block_row_iff p hk (by omega) hm2' hv).mp hcon)))
  have h3 : opContrib (blockStart p m1 + u) (blockStart p m2 + v)
      ⟨blockStart p m1, p.mb, p.nkt, p.nbt,
        fun u v => q m1 p.nbases * (pK u * pB v)⟩ = 0 :=
    opContrib_lit_zero_col _ _ _ _ _ _ _ (by omega)
  have h4 : opContrib (blockStart p m1 + u) (blockStart p m2 + v)
      ⟨blockStart p m1, blockStart p m2, p.nkt, p.nkt,
        fun u v => q m1 m2 * (pK u * pK v)⟩ = q m1 m2 * (pK u * pK v) := by
    rw [opContrib_lit_hit _ _ _ _ _ _ _ (by omega) (by omega)]
    simp only [Nat.add_sub_cancel_left]
  rw [h1, h2, h4, h3, ite_self, zero_add, add_zero]

theorem m1Ops_sum_diag (p : SpatialParams) (hk : 1 ≤ p.nkt)
    (q : ℕ → ℕ → ℚ) (pK pB : ℕ → ℚ) {m1 u v : ℕ}
    (hm1 : p.m0 ≤ m1) (hlt : m1 < p.nbases) (hu : u < p.nkt) (hv : v < p.nkt) :
    ((m1Ops p q pK pB m1).map
        (opContrib (blockStart p m1 + u) (blockStart p m1 + v))).sum =
      if u ≤ v then (pK u * pK v) * q m1 m1 else 0 := by
  have hbmb : blockStart p m1 + p.nkt ≤ p.mb :=
    blockStart_nkt_le_mb p hk (by omega) hm1 hlt
  simp only [m1Ops, List.map_cons, List.sum_cons, List.map_append,
    List.sum_append, List.map_map, sum_map_if_single, Function.comp_def]
  have h1 : opContrib (blockStart p m1 + u) (blockStart p m1 + v)
      ⟨blockStart p m1, blockStart p m1, p.nkt, p.nkt,
        fun u v => if u ≤ v then (pK u * pK v) * q m1 m1 else 0⟩ =
      if u ≤ v then (pK u * pK v) * q m1 m1 else 0 := by
    rw [opContrib_lit_hit _ _ _ _ _ _ _ (by omega) (by omega)]
    simp only [Nat.add_sub_cancel_left]
  have h2 : ((List.range' (m1 + 1) (p.nbases - (m1 + 1))).map
      (fun m2 => opContrib (blockStart p m1 + u) (blockStart p m1 + v)
        ⟨blockStart p m1, blockStart p m2, p.nkt, p.nkt,
          fun u v => q m1 m2 * (pK u * pK v)⟩)).sum = 0 :=
    sum_map_range'_zero _ _ _
      (fun k hk1 hk2 => opContrib_lit_zero_col _ _ _ _ _ _ _
        (fun hcon => (by omega : k ≠ m1)
          ((block_row_iff p hk (by omega) hm1 hv).mp hcon)))
  have h3 : opContrib (blockStart p m1 + u) (blockStart p m1 + v)
      ⟨blockStart p m1, p.mb, p.nkt, p.nbt,
        fun u v => q m1 p.nbases * (pK u * pB v)⟩ = 0 :=
    opContrib_lit_zero_col _ _ _ _ _ _ _ (by omega)
  rw [h1, h2, h3, ite_self, add_zero, add_zero]

theorem m1Ops_sum_cross (p : SpatialParams) (hk : 1 ≤ p.nkt)
    (q : ℕ → ℕ → ℚ) (pK pB : ℕ → ℚ) (hbg : p.fitBg = true) {m1 u v : ℕ}
    (hm1 : p.m0 ≤ m1) (hlt : m1 < p.nbases) (hu : u < p.nkt) (hv : v < p.nbt) :
    ((m1Ops p q pK pB m1).map
        (opContrib (blockStart p m1 + u) (p.mb + v))).sum =
      q m1 p.nbases * (pK u * pB v) := by
  have hbmb : blockStart p m1 + p.nkt ≤ p.mb :=
    blockStart_nkt_le_mb p hk (by omega) hm1 hlt
  simp only [m1Ops, List.map_cons, List.sum_cons, List.map_append,
    List.sum_append, List.map_map, sum_map_if_single, Function.comp_def]
  have h1 : opContrib (blockStart p m1 + u) (p.mb + v)
      ⟨blockStart p m1, blockStart p m1, p.nkt, p.nkt,
        fun u v => if u ≤ v then (pK u * pK v) * q m1 m1 else 0⟩ = 0 :=
    opContrib_lit_zero_col _ _ _ _ _ _ _ (by omega)
  have h2 : ((List.range' (m1 + 1) (p.nbases - (m1 + 1))).map
      (fun m2 => opContrib (blockStart p m1 + u) (p.mb + v)
        ⟨blockStart p m1, blockStart p m2, p.nkt, p.nkt,
          fun u v => q m1 m2 * (pK u * pK v)⟩)).sum = 0 :=
    sum_map_range'_zero _ _ _
      (fun k hk1 hk2 => opContrib_lit_zero_col _ _ _ _ _ _ _ (by
        have hkb : blockStart p k + p.nkt ≤ p.mb :=
          blockStart_nkt_le_mb p hk (by omega) (by omega) (by omega)
        omega))
  have h3 : opContrib (blockStart p m1 + u) (p.mb + v)
      ⟨blockStart p m1, p.mb, p.nkt, p.nbt,
        fun u v => q m1 p.nbases * (pK u * pB v)⟩ =
      q m1 p.nbases * (pK u * pB v) := by
    rw [opContrib_lit_hit _ _ _ _ _ _ _ (by omega) (by omega)]
    simp only [Nat.add_sub_cancel_left]
  rw [h1, h2, h3, if_pos hbg, zero_add, zero_add]

theorem cftOps_sum_zero (p : SpatialParams) (q : ℕ → ℕ → ℚ) (pK pB : ℕ → ℚ)
    {i : ℕ} (hi : p.cft = true → 1 ≤ i) (j : ℕ) :
    ((if p.cft = true then cftRowOps p q pK pB else []).map
        (opContrib i j)).sum = 0 := by
  rcases hcf : p.cft with _ | _
  · simp [hcf]
  · have hi1 := hi hcf
    rw [if_pos rfl]
    simp only [cftRowOps, List.map_cons, List.sum_cons, List.map_append,
      List.sum_append, List.map_map, sum_map_if_single, Function.comp_def]
    have h1 : opContrib i j ⟨0, 0, 1, 1, fun _ _ => q 0 0⟩ = 0 :=
      opContrib_lit_zero_row _ _ _ _ _ _ _ (by omega)
    have h2 : ((List.range' 1 (p.nbases - 1)).map
        (fun m2 => opContrib i j ⟨0, blockStart p m2, 1, p.nkt,
          fun _ v => q 0 m2 * pK v⟩)).sum = 0 :=
      sum_map_range'_zero _ _ _
        (fun k hk1 hk2 => opContrib_lit_zero_row _ _ _ _ _ _ _ (by omega))
    have h3 : opContrib i j ⟨0, p.mb, 1, p.nbt,
        fun _ v => q 0 p.nbases * pB v⟩ = 0 :=
      opContrib_lit_zero_row _ _ _ _ _ _ _ (by omega)
    rw [h1, h2, h3, ite_self, add_zero, add_zero]

theorem bgOps_sum_zero_row (p : SpatialParams) (q : ℕ → ℕ → ℚ) (pB : ℕ → ℚ)
    {i : ℕ} (hi : i < p.mb) (j : ℕ) :
    ((bgBlockOps p q pB).map (opContrib i j)).sum = 0 := by
  simp only [bgBlockOps, sum_map_if_single]
  have h1 : opContrib i j ⟨p.mb, p.mb, p.nbt, p.nbt,
      fun u v => if u ≤ v then (pB u * pB v) * q p.nbases p.nbases else 0⟩ = 0 :=
    opContrib_lit_zero_row _ _ _ _ _ _ _ (by omega)
  rw [h1, ite_self]

theorem bgOps_sum_hit (p : SpatialParams) (q : ℕ → ℕ → ℚ) (pB : ℕ → ℚ)
    (hbg : p.fitBg = true) {u v : ℕ} (hu : u < p.nbt) (hv : v < p.nbt) :
    ((bgBlockOps p q pB).map (opContrib (p.mb + u) (p.mb + v))).sum =
      if u ≤ v then (pB u * pB v) * q p.nbases p.nbases else 0 := by
  simp only [bgBlockOps, sum_map_if_single]
  have h1 : opContrib (p.mb + u) (p.mb + v) ⟨p.mb, p.mb, p.nbt, p.nbt,
      fun a b => if a ≤ b then (pB a * pB b) * q p.nbases p.nbases else 0⟩ =
      if u ≤ v then (pB u * pB v) * q p.nbases p.nbases else 0 := by
    rw [opContrib_lit_hit _ _ _ _ _ _ _ (by omega) (by omega)]
    simp only [Nat.add_sub_cancel_left]
  rw [h1, if_pos hbg]

theorem constraintOps_sum_offdiag (p : SpatialParams) (hk : 1 ≤ p.nkt)
    (q : ℕ → ℕ → ℚ) (pK pB : ℕ → ℚ) {m1 m2 u v : ℕ}
    (hm1 : p.m0 ≤ m1) (h12 : m1 < m2) (hlt : m2 < p.nbases)
    (hu : u < p.nkt) (hv : v < p.nkt) :
    ((constraintOps p q pK pB).map
        (opContrib (blockStart p m1 + u) (blockStart p m2 + v))).sum =
      q m1 m2 * (pK u * pK v) := by
  have hbm1 : blockStart p m1 + p.nkt ≤ p.mb :=
    blockStart_nkt_le_mb p hk (by omega) hm1 (by omega)
  simp only [constraintOps, List.map_append, List.sum_append]
  have hA : ((if p.cft = true then cftRowOps p q pK pB else []).map
      (opContrib (blockStart p m1 + u) (blockStart p m2 + v))).sum = 0 :=
    cftOps_sum_zero p q pK pB (fun hcf => by
      have h0 : p.m0 = 1 := by rw [SpatialParams.m0, if_pos hcf]
      have h1 := one_le_blockStart p hk hcf (m := m1) (by omega)
      omega) _
  have hsel : ((List.range' p.m0 (p.nbases - p.m0)).map
      (fun m => ((m1Ops p q pK pB m).map
        (opContrib (blockStart p m1 + u) (blockStart p m2 + v))).sum)).sum =
      ((m1Ops p q pK pB m1).map
        (opContrib (blockStart p m1 + u) (blockStart p m2 + v))).sum :=
    sum_map_range'_single _ _ _ m1 hm1 (by omega)
      (fun k hk1 hk2 hkne => m1Ops_sum_zero_row p q pK pB k
        (fun hcon => hkne ((block_row_iff p hk (by omega) hm1 hu).mp hcon)) _)
  have hC : ((bgBlockOps p q pB).map
      (opContrib (blockStart p m1 + u) (blockStart p m2 + v))).sum = 0 :=
    bgOps_sum_zero_row p q pB (by omega) _
  rw [hA, sum_map_flatMap, hsel,
    m1Ops_sum_offdiag p hk q pK pB hm1 h12 hlt hu hv, hC, zero_add, add_zero]

theorem constraintOps_sum_diag (p : SpatialParams) (hk : 1 ≤ p.nkt)
    (q : ℕ → ℕ → ℚ) (pK pB : ℕ → ℚ) {m1 u v : ℕ}
    (hm1 : p.m0 ≤ m1) (hlt : m1 < p.nbases)
    (hu : u < p.nkt) (hv : v < p.nkt) :
    ((constraintOps p q pK pB).map
        (opContrib (blockStart p m1 + u) (blockStart p m1 + v))).sum =
      if u ≤ v then (pK u * pK v) * q m1 m1 else 0 := by
  have hbm1 : blockStart p m1 + p.nkt ≤ p.mb :=
    blockStart_nkt_le_mb p hk (by omega) hm1 hlt
  simp only [constraintOps, List.map_append, List.sum_append]
  have hA : ((if p.cft = true then cftRowOps p q pK pB else []).map
      (opContrib (blockStart p m1 + u) (blockStart p m1 + v))).sum = 0 :=
    cftOps_sum_zero p q pK pB (fun hcf => by
      have h0 : p.m0 = 1 := by rw [SpatialParams.m0, if_pos hcf]
      have h1 := one_le_blockStart p hk hcf (m := m1) (by omega)
      omega) _
  have hsel : ((List.range' p.m0 (p.nbases - p.m0)).map
      (fun m => ((m1Ops p q pK pB m).map
        (opContrib (blockStart p m1 + u) (blockStart p m1 + v))).sum)).sum =
      ((m1Ops p q pK pB m1).map
        (opContrib (blockStart p m1 + u) (blockStart p m1 + v))).sum :=
    sum_map_range'_single _ _ _ m1 hm1 (by omega)
      (fun k hk1 hk2 hkne => m1Ops_sum_zero_row p q pK pB k
        (fun hcon => hkne ((block_row_iff p hk (by omega) hm1 hu).mp hcon)) _)
  have hC : ((bgBlockOps p q pB).map
      (opContrib (blockStart p m1 + u) (blockStart p m1 + v))).sum = 0 :=
    bgOps_sum_zero_row p q pB (by omega) _
  rw [hA, sum_map_flatMap, hsel,
    m1Ops_sum_diag p hk q pK pB hm1 hlt hu hv, hC, zero_add, add_zero]

theorem constraintOps_sum_cross (p : SpatialParams) (hk : 1 ≤ p.nkt)
    (q : ℕ → ℕ → ℚ) (pK pB : ℕ → ℚ) (hbg : p.fitBg = true) {m1 u v : ℕ}
    (hm1 : p.m0 ≤ m1) (hlt : m1 < p.nbases)
    (hu : u < p.nkt) (hv : v < p.nbt) :
    ((constraintOps p q pK pB).map
        (opContrib (blockStart p m1 + u) (p.mb + v))).sum =
      q m1 p.nbases * (pK u * pB v) := by
  have hbm1 : blockStart p m1 + p.nkt ≤ p.mb :=
    blockStart_nkt_le_mb p hk (by omega) hm1 hlt
  simp only [constraintOps, List.map_append, List.sum_append]
  have hA : ((if p.cft = true then cftRowOps p q pK pB else []).map
      (opContrib (blockStart p m1 + u) (p.mb + v))).sum = 0 :=
    cftOps_sum_zero p q pK pB (fun hcf => by
      have h0 : p.m0 = 1 := by rw [SpatialParams.m0, if_pos hcf]
      have h1 := one_le_blockStart p hk hcf (m := m1) (by omega)
      omega) _
  have hsel : ((List.range' p.m0 (p.nbases - p.m0)).map
      (fun m => ((m1Ops p q pK pB m).map
        (opContrib (blockStart p m1 + u) (p.mb + v))).sum)).sum =
      ((m1Ops p q pK pB m1).map
        (opContrib (blockStart p m1 + u) (p.mb + v))).sum :=
    sum_map_range'_single _ _ _ m1 hm1 (by omega)
      (fun k hk1 hk2 hkne => m1Ops_sum_zero_row p q pK pB k
        (fun hcon => hkne ((block_row_iff p hk (by omega) hm1 hu).mp hcon)) _)
  have hC : ((bgBlockOps p q pB).map
      (opContrib (blockStart p m1 + u) (p.mb + v))).sum = 0 :=
    bgOps_sum_zero_row p q pB (by omega) _
  rw [hA, sum_map_flatMap, hsel,
    m1Ops_sum_cross p hk q pK pB hbg hm1 hlt hu hv, hC, zero_add, add_zero]

theorem constraintOps_sum_bg (p : SpatialParams) (hk : 1 ≤ p.nkt)
    (q : ℕ → ℕ → ℚ) (pK pB : ℕ → ℚ) (hbg : p.fitBg = true) {u v : ℕ}
    (hu : u < p.nbt) (hv : v < p.nbt) :
    ((constraintOps p q pK pB).map
        (opContrib (p.mb + u) (p.mb + v))).sum =
      if u ≤ v then (pB u * pB v) * q p.nbases p.nbases else 0 := by
  simp only [constraintOps, List.map_append, List.sum_append]
  have hA : ((if p.cft = true then cftRowOps p q pK pB else []).map
      (opContrib (p.mb + u) (p.mb + v))).sum = 0 :=
    cftOps_sum_zero p q pK pB (fun hcf => by
      have h1 := one_le_mb p hcf
      omega) _
  have hB : ((List.range' p.m0 (p.nbases - p.m0)).map
      (fun m => ((m1Ops p q pK pB m).map
        (opContrib (p.mb + u) (p.mb + v))).sum)).sum = 0 :=
    sum_map_range'_zero _ _ _
      (fun k hk1 hk2 => m1Ops_sum_zero_row p q pK pB k (by
        have hkb : blockStart p k + p.nkt ≤ p.mb :=
          blockStart_nkt_le_mb p hk (by omega) (by omega) (by omega)
        omega) _)
  have hC : ((bgBlockOps p q pB).map
      (opContrib (p.mb + u) (p.mb + v))).sum =
      if u ≤ v then (pB u * pB v) * q p.nbases p.nbases else 0 :=
    bgOps_sum_hit p q pB hbg hu hv
  rw [hA, sum_map_flatMap, hB, hC, zero_add, zero_add]

theorem constraintSegs_sum_k (p : SpatialParams) (hk : 1 ≤ p.nkt)
    (w : ℕ → ℚ) (pK pB : ℕ → ℚ) {m1 u : ℕ}
    (hm1 : p.m0 ≤ m1) (hlt : m1 < p.nbases) (hu : u < p.nkt) :
    ((constraintSegs p w pK pB).map
        (segContrib (blockStart p m1 + u))).sum = w m1 * pK u := by
  have hbm1 : blockStart p m1 + p.nkt ≤ p.mb :=
    blockStart_nkt_le_mb p hk (by omega) hm1 hlt
  simp only [constraintSegs, List.map_append, List.sum_append,
    List.map_map, sum_map_if_single, Function.comp_def]
  have hA : (if p.cft = true then
      segContrib (blockStart p m1 + u) ⟨0, 1, fun _ => w 0⟩ else 0) = 0 := by
    rcases hcf : p.cft with _ | _
    · rw [if_neg (by simp [hcf])]
    · rw [if_pos rfl]
      have h0 : p.m0 = 1 := by rw [SpatialParams.m0, if_pos hcf]
      have h1 := one_le_blockStart p hk hcf (m := m1) (by omega)
      exact segContrib_lit_zero _ _ _ _ (by omega)
  have hB : ((List.range' p.m0 (p.nbases - p.m0)).map
      (fun m => segContrib (blockStart p m1 + u)
        ⟨blockStart p m, p.nkt, fun a => w m * pK a⟩)).sum =
      segContrib (blockStart p m1 + u)
        ⟨blockStart p m1, p.nkt, fun a => w m1 * pK a⟩ :=
    sum_map_range'_single _ _ _ m1 hm1 (by omega)
      (fun k hk1 hk2 hkne => segContrib_lit_zero _ _ _ _
        (fun hcon => hkne ((block_row_iff p hk (by omega) hm1 hu).mp hcon)))
  have hB2 : segContrib (blockStart p m1 + u)
      ⟨blockStart p m1, p.nkt, fun a => w m1 * pK a⟩ = w m1 * pK u := by
    rw [segContrib_lit_hit _ _ _ _ (by omega)]
    simp only [Nat.add_sub_cancel_left]
  have hC : (if p.fitBg = true then
      segContrib (blockStart p m1 + u)
        ⟨p.mb, p.nbt, fun a => w p.nbases * pB a⟩ else 0) = 0 := by
    have hz : segContrib (blockStart p m1 + u)
        ⟨p.mb, p.nbt, fun a => w p.nbases * pB a⟩ = 0 :=
      segContrib_lit_zero _ _ _ _ (by omega)
    rw [hz, ite_self]
  rw [hA, hB, hB2, hC, zero_add, add_zero]

theorem constraintSegs_sum_bg (p : SpatialParams) (hk : 1 ≤ p.nkt)
    (w : ℕ → ℚ) (pK pB : ℕ → ℚ) (hbg : p.fitBg = true) {u : ℕ}
    (hu : u < p.nbt) :
    ((constraintSegs p w pK pB).map (segContrib (p.mb + u))).sum =
      w p.nbases * pB u := by
  simp only [constraintSegs, List.map_append, List.sum_append,
    List.map_map, sum_map_if_single, Function.comp_def]
  have hA : (if p.cft = true then
      segContrib (p.mb + u) ⟨0, 1, fun _ => w 0⟩ else 0) = 0 := by
    rcases hcf : p.cft with _ | _
    · rw [if_neg (by simp [hcf])]
    · rw [if_pos rfl]
      have h1 := one_le_mb p hcf
      exact segContrib_lit_zero _ _ _ _ (by omega)
  have hB : ((List.range' p.m0 (p.nbases - p.m0)).map
      (fun m => segContrib (p.mb + u)
        ⟨blockStart p m, p.nkt, fun a => w m * pK a⟩)).sum = 0 :=
    sum_map_range'_zero _ _ _
      (fun k hk1 hk2 => segContrib_lit_zero _ _ _ _ (by
        have hkb : blockStart p k + p.nkt ≤ p.mb :=
          blockStart_nkt_le_mb p hk (by omega) (by omega) (by omega)
        omega))
  have hC : segContrib (p.mb + u) ⟨p.mb, p.nbt, fun a => w p.nbases * pB a⟩ =
      w p.nbases * pB u := by
    rw [segContrib_lit_hit _ _ _ _ (by omega)]
    simp only [Nat.add_sub_cancel_left]
  rw [hA, hB, hC, if_pos hbg, zero_add, zero_add]

theorem symmetrizeFill_upper (nt : ℕ) (M : ℕ → ℕ → ℚ) {i j : ℕ}
    (hij : i ≤ j) : symmetrizeFill nt M i j = M i j := by
  simp only [symmetrizeFill]
  rw [if_neg (by omega)]

theorem symmetrizeFill_symm (nt : ℕ) (M : ℕ → ℕ → ℚ) {i j : ℕ}
    (hi : i < nt) (hj : j < nt) :
    symmetrizeFill nt M i j = symmetrizeFill nt M j i := by
  simp only [symmetrizeFill]
  rcases Nat.lt_trichotomy i j with h | h | h
  · rw [if_neg (by omega), if_pos ⟨h, hj⟩]
  · subst h
    rfl
  · rw [if_pos ⟨h, hi⟩, if_neg (by omega)]

/-- Claim C3: every `addConstraint(x, y, Q, w)` call adds
`Q(m1,m2)·(pK pKᵀ)` to the kernel-kernel block of `_mMat` at
`(m1·nKt−Δ, m2·nKt−Δ)` (only its upper triangle on the diagonal block
`m1 = m2`), `Q(nBases,nBases)·(pB pBᵀ)` to the background block (upper
triangle), `Q(m1,nBases)·(pK pBᵀ)` to the kernel×background cross
block, and `w(m1)·pK`, `w(nBases)·pB` to the matching `_bVec` segments;
at solve time the upper triangle of `_mMat` is copied onto the lower
triangle before the linear solver runs, so the solved matrix is
symmetric. -/
theorem spatialKernelSolution_addConstraint_spec
    (p : SpatialParams) (hk : 1 ≤ p.nkt)
    (M : ℕ → ℕ → ℚ) (b : ℕ → ℚ) (x y : ℚ)
    (kFunc bFunc : ℕ → ℚ → ℚ → ℚ) (q : ℕ → ℕ → ℚ) (w : ℕ → ℚ)
    (M2 : ℕ → ℕ → ℚ) (b2 : ℕ → ℚ)
    (hres : addConstraint p M b x y kFunc bFunc q w = (M2, b2)) :
    (∀ m1 m2 u v, p.m0 ≤ m1 → m1 < m2 → m2 < p.nbases → u < p.nkt →
        v < p.nkt →
        M2 (blockStart p m1 + u) (blockStart p m2 + v) =
          M (blockStart p m1 + u) (blockStart p m2 + v) +
            q m1 m2 * (kFunc u x y * kFunc v x y)) ∧
    (∀ m1 u v, p.m0 ≤ m1 → m1 < p.nbases → u < p.nkt → v < p.nkt →
        M2 (blockStart p m1 + u) (blockStart p m1 + v) =
          M (blockStart p m1 + u) (blockStart p m1 + v) +
            (if u ≤ v then (kFunc u x y * kFunc v x y) * q m1 m1 else 0)) ∧
    (p.fitBg = true →
        ∀ m1 u v, p.m0 ≤ m1 → m1 < p.nbases → u < p.nkt → v < p.nbt →
        M2 (blockStart p m1 + u) (p.mb + v) =
          M (blockStart p m1 + u) (p.mb + v) +
            q m1 p.nbases * (kFunc u x y * bFunc v x y)) ∧
    (p.fitBg = true → ∀ u v, u < p.nbt → v < p.nbt →
        M2 (p.mb + u) (p.mb + v) =
          M (p.mb + u) (p.mb + v) +
            (if u ≤ v then (bFunc u x y * bFunc v x y) * q p.nbases p.nbases
             else 0)) ∧
    (∀ m1 u, p.m0 ≤ m1 → m1 < p.nbases → u < p.nkt →
        b2 (blockStart p m1 + u) =
          b (blockStart p m1 + u) + w m1 * kFunc u x y) ∧
    (p.fitBg = true → ∀ u, u < p.nbt →
        b2 (p.mb + u) = b (p.mb + u) + w p.nbases * bFunc u x y) ∧
    (∀ eig, spatialSolve p M2 b2 eig =
        solveLin (toFinM p.nt (symmetrizeFill p.nt M2)) (toFinV p.nt b2)
          eig) ∧
    (∀ i j : Fin p.nt, (i : ℕ) ≤ (j : ℕ) →
        toFinM p.nt (symmetrizeFill p.nt M2) i j = M2 (i : ℕ) (j : ℕ)) ∧
    (∀ i j : Fin p.nt,
        toFinM p.nt (symmetrizeFill p.nt M2) i j =
          toFinM p.nt (symmetrizeFill p.nt M2) j i) := by
  have hM2 : M2 = applyOps M (constraintOps p q (fun idx => kFunc idx x y)
      (fun idx => bFunc idx x y)) := by
    have h := congrArg Prod.fst hres
    simpa [addConstraint] using h.symm
  have hb2v : b2 = applySegs b (constraintSegs p w (fun idx => kFunc idx x y)
      (fun idx => bFunc idx x y)) := by
    have h := congrArg Prod.snd hres
    simpa [addConstraint] using h.symm
  subst hM2
  subst hb2v
  refine ⟨?_, ?_, ?_, ?_, ?_, ?_, ?_, ?_, ?_⟩
  · intro m1 m2 u v hm1 h12 hlt hu hv
    rw [applyOps_apply,
      constraintOps_sum_offdiag p hk q _ _ hm1 h12 hlt hu hv]
  · intro m1 u v hm1 hlt hu hv
    rw [applyOps_apply, constraintOps_sum_diag p hk q _ _ hm1 hlt hu hv]
  · intro hbg m1 u v hm1 hlt hu hv
    rw [applyOps_apply,
      constraintOps_sum_cross p hk q _ _ hbg hm1 hlt hu hv]
  · intro hbg u v hu hv
    rw [applyOps_apply, constraintOps_sum_bg p hk q _ _ hbg hu hv]
  · intro m1 u hm1 hlt hu
    rw [applySegs_apply, constraintSegs_sum_k p hk w _ _ hm1 hlt hu]
  · intro hbg u hu
    rw [applySegs_apply, constraintSegs_sum_bg p hk w _ _ hbg hu]
  · intro eig
    rfl
  · intro i j hij
    exact symmetrizeFill_upper p.nt _ hij
  · intro i j
    exact symmetrizeFill_symm p.nt _ i.isLt j.isLt

/-- Witness for C3 at `nBases = 2`, `nKt = 1`, `nBt = 1`, no constant
first term, background fitted: the first kernel segment of `_bVec`
gains `w(0)·pK(0) = 1·1`. -/
theorem spatialKernelSolution_addConstraint_spec_witness :
    1 ≤ (⟨2, 1, 1, false, true⟩ : SpatialParams).nkt ∧
    (addConstraint ⟨2, 1, 1, false, true⟩ (fun _ _ => 0) (fun _ => 0) 0 0
        (fun _ _ _ => 1) (fun _ _ _ => 1) (fun _ _ => 1) (fun _ => 1)).2
      (blockStart ⟨2, 1, 1, false, true⟩ 0 + 0) = 0 + 1 * 1 :=
  ⟨by decide,
   (spatialKernelSolution_addConstraint_spec ⟨2, 1, 1, false, true⟩
      (by decide) (fun _ _ => 0) (fun _ => 0) 0 0 (fun _ _ _ => 1)
      (fun _ _ _ => 1) (fun _ _ => 1) (fun _ => 1) _ _ rfl).2.2.2.2.1 0 0
      (by decide) (by decide) (by decide)⟩

end IpDiffim
